import Mathlib

/-!
Verification of the score-following debug pipeline (log parser, failure
analyzer, log flattener) against its design specification.

Conventions of the shallow embedding:
* Python floats are modelled as rationals (`ℚ`); every numeric literal the
  claims exercise is exactly representable.
* Python lists are Lean `List`s; Python dicts with insertion order are
  modelled as insertion-ordered association lists.
* Fallible Python code (code that can raise) is modelled with `Except`;
  `try/except-continue` blocks are modelled by explicit error recovery.
* Each definition carries a note naming the Python function it embeds.
-/

namespace SFDebug

/-! ## Binary-search range query

Embeds `FailureAnalyzer._get_items_in_time_range`
(src/debug/src/failure_analyzer.py lines 145-174).  The Python code does two
hand-written binary searches over a time-sorted list and returns the slice
`sorted_items[start_idx:end_idx]`.  Items are generic; `time` is the
`time_field` projection. `l.getD mid default` renders `sorted_items[mid]`
(indices are in range whenever the loops run, so the default is never hit). -/

variable {A : Type} [Inhabited A]

/-- First `while` loop of `_get_items_in_time_range`: lower bound, i.e. the
first index whose time is not `< start_time`. -/
def lbLoop (time : A → ℚ) (l : List A) (t0 : ℚ) (left right : Nat) : Nat :=
  if _h : left < right then
    let mid := (left + right) / 2
    if time (l.getD mid default) < t0 then
      lbLoop time l t0 (mid + 1) right
    else
      lbLoop time l t0 left mid
  else
    left
termination_by right - left
decreasing_by all_goals (simp_wf; omega)

/-- Second `while` loop of `_get_items_in_time_range`: upper bound, i.e. the
first index (at or after `left`) whose time is not `<= end_time`. -/
def ubLoop (time : A → ℚ) (l : List A) (t1 : ℚ) (left right : Nat) : Nat :=
  if _h : left < right then
    let mid := (left + right) / 2
    if time (l.getD mid default) ≤ t1 then
      ubLoop time l t1 (mid + 1) right
    else
      ubLoop time l t1 left mid
  else
    left
termination_by right - left
decreasing_by all_goals (simp_wf; omega)

/-- Embeds `FailureAnalyzer._get_items_in_time_range(sorted_items, start_time,
end_time, time_field)`.  The Python slice `l[s:e]` is `(l.drop s).take (e-s)`
(both indices are between 0 and `len l`, and an empty slice results when
`e ≤ s`). -/
def getItemsInTimeRange (time : A → ℚ) (sortedItems : List A)
    (startTime endTime : ℚ) : List A :=
  if sortedItems.isEmpty then []
  else
    let startIdx := lbLoop time sortedItems startTime 0 sortedItems.length
    let endIdx := ubLoop time sortedItems endTime startIdx sortedItems.length
    (sortedItems.drop startIdx).take (endIdx - startIdx)

/-- The precondition of `_get_items_in_time_range`: items ascend by the time
field. -/
def TimeSorted (time : A → ℚ) (l : List A) : Prop :=
  l.Pairwise fun a b => time a ≤ time b

theorem timeSorted_mono {time : A → ℚ} {l : List A} (hs : TimeSorted time l) :
    ∀ i j, i ≤ j → j < l.length →
      time (l.getD i default) ≤ time (l.getD j default) := by
  intro i j hij hj
  rcases Nat.eq_or_lt_of_le hij with rfl | hlt
  · exact le_refl _
  · have hi : i < l.length := lt_trans hlt hj
    rw [List.getD_eq_getElem l default hi, List.getD_eq_getElem l default hj]
    exact (List.pairwise_iff_getElem.mp hs) i j hi hj hlt

theorem lbLoop_spec (time : A → ℚ) (l : List A) (t0 : ℚ)
    (hmono : ∀ i j, i ≤ j → j < l.length →
      time (l.getD i default) ≤ time (l.getD j default)) :
    ∀ n left right, right - left ≤ n → left ≤ right → right ≤ l.length →
    (∀ i, i < left → time (l.getD i default) < t0) →
    (∀ i, right ≤ i → i < l.length → ¬ time (l.getD i default) < t0) →
    (left ≤ lbLoop time l t0 left right ∧ lbLoop time l t0 left right ≤ right)
    ∧ (∀ i, i < lbLoop time l t0 left right → time (l.getD i default) < t0)
    ∧ (∀ i, lbLoop time l t0 left right ≤ i → i < l.length →
        ¬ time (l.getD i default) < t0) := by
  intro n
  induction n with
  | zero =>
    intro left right hn hlr hrl hlo hhi
    have heq : left = right := by omega
    rw [lbLoop]
    simp only [show ¬ left < right by omega, dite_false]
    refine ⟨⟨le_refl _, by omega⟩, hlo, ?_⟩
    intro i hi hil
    exact hhi i (by omega) hil
  | succ n ih =>
    intro left right hn hlr hrl hlo hhi
    rw [lbLoop]
    by_cases h : left < right
    · simp only [h, dite_true]
      set mid := (left + right) / 2 with hmid
      have hmlt : mid < right := by omega
      have hmge : left ≤ mid := by omega
      have hmlen : mid < l.length := by omega
      by_cases hc : time (l.getD mid default) < t0
      · simp only [hc, if_true]
        refine (ih (mid + 1) right (by omega) (by omega) hrl ?_ hhi).imp ?_ id
        · intro i hi
          have hile : i ≤ mid := by omega
          exact lt_of_le_of_lt (hmono i mid hile hmlen) hc
        · intro hb; exact ⟨by omega, hb.2⟩
      · simp only [hc, if_false]
        refine (ih left mid (by omega) (by omega) (by omega) hlo ?_).imp ?_ id
        · intro i hi hil
          intro hlt
          exact hc (lt_of_le_of_lt (hmono mid i hi hil) hlt)
        · intro hb; exact ⟨hb.1, by omega⟩
    · simp only [h, dite_false]
      refine ⟨⟨le_refl _, hlr⟩, hlo, ?_⟩
      intro i hi hil
      exact hhi i (by omega) hil

theorem ubLoop_spec (time : A → ℚ) (l : List A) (t1 : ℚ) (b : Nat)
    (hmono : ∀ i j, i ≤ j → j < l.length →
      time (l.getD i default) ≤ time (l.getD j default)) :
    ∀ n left right, right - left ≤ n → b ≤ left → left ≤ right →
    right ≤ l.length →
    (∀ i, b ≤ i → i < left → time (l.getD i default) ≤ t1) →
    (∀ i, right ≤ i → i < l.length → ¬ time (l.getD i default) ≤ t1) →
    (left ≤ ubLoop time l t1 left right ∧ ubLoop time l t1 left right ≤ right)
    ∧ (∀ i, b ≤ i → i < ubLoop time l t1 left right →
        time (l.getD i default) ≤ t1)
    ∧ (∀ i, ubLoop time l t1 left right ≤ i → i < l.length →
        ¬ time (l.getD i default) ≤ t1) := by
  intro n
  induction n with
  | zero =>
    intro left right hn hb hlr hrl hlo hhi
    have heq : left = right := by omega
    rw [ubLoop]
    simp only [show ¬ left < right by omega, dite_false]
    refine ⟨⟨le_refl _, by omega⟩, hlo, ?_⟩
    intro i hi hil
    exact hhi i (by omega) hil
  | succ n ih =>
    intro left right hn hb hlr hrl hlo hhi
    rw [ubLoop]
    by_cases h : left < right
    · simp only [h, dite_true]
      set mid := (left + right) / 2 with hmid
      have hmlt : mid < right := by omega
      have hmge : left ≤ mid := by omega
      have hmlen : mid < l.length := by omega
      by_cases hc : time (l.getD mid default) ≤ t1
      · simp only [hc, if_true]
        refine (ih (mid + 1) right (by omega) (by omega) (by omega) hrl ?_
          hhi).imp ?_ id
        · intro i _ hi
          have hile : i ≤ mid := by omega
          exact le_trans (hmono i mid hile hmlen) hc
        · intro hb'; exact ⟨by omega, hb'.2⟩
      · simp only [hc, if_false]
        refine (ih left mid (by omega) hb (by omega) (by omega) hlo ?_).imp
          ?_ id
        · intro i hi hil
          intro hle
          exact hc (le_trans (hmono mid i hi hil) hle)
        · intro hb'; exact ⟨hb'.1, by omega⟩
    · simp only [h, dite_false]
      refine ⟨⟨le_refl _, hlr⟩, hlo, ?_⟩
      intro i hi hil
      exact hhi i (by omega) hil

/-- C3: on a list ascending in the time field, the binary-search range query
returns exactly the items with `t0 ≤ time ≤ t1`, in order — identical to a
naive linear filter (empty-list and empty-window cases included). -/
theorem getItemsInTimeRange_eq_linear_filter (time : A → ℚ) (l : List A)
    (hs : TimeSorted time l) (t0 t1 : ℚ) :
    getItemsInTimeRange time l t0 t1
      = l.filter fun x => decide (t0 ≤ time x) && decide (time x ≤ t1) := by
  rcases l with _ | ⟨a, l'⟩
  · simp [getItemsInTimeRange]
  set l := a :: l' with hl
  have hmono := timeSorted_mono hs
  have hne : l.isEmpty = false := by simp [hl]
  unfold getItemsInTimeRange
  rw [hne]
  simp only [Bool.false_eq_true, if_false]
  set s := lbLoop time l t0 0 l.length with hsdef
  have hlb := lbLoop_spec time l t0 hmono l.length 0 l.length (by omega)
    (by omega) (le_refl _) (by intro i hi; omega) (by intro i hi hil; omega)
  rw [← hsdef] at hlb
  obtain ⟨⟨_, hsle⟩, hslt, hsge⟩ := hlb
  set e := ubLoop time l t1 s l.length with hedef
  have hub := ubLoop_spec time l t1 s hmono l.length s l.length (by omega)
    (le_refl _) hsle (le_refl _) (by intro i hi hil; omega)
    (by intro i hi hil; omega)
  rw [← hedef] at hub
  obtain ⟨⟨hse, hele⟩, helt, hege⟩ := hub
  have hdecomp : l.take s ++ ((l.drop s).take (e - s) ++ l.drop e) = l := by
    have h2 : (l.drop s).drop (e - s) = l.drop e := by
      rw [List.drop_drop]
      congr 1
      omega
    calc l.take s ++ ((l.drop s).take (e - s) ++ l.drop e)
        = l.take s ++ ((l.drop s).take (e - s) ++ (l.drop s).drop (e - s)) :=
          by rw [h2]
      _ = l.take s ++ l.drop s := by rw [List.take_append_drop]
      _ = l := List.take_append_drop s l
  conv_rhs => rw [← hdecomp]
  rw [List.filter_append, List.filter_append]
  have hpre : (l.take s).filter
      (fun x => decide (t0 ≤ time x) && decide (time x ≤ t1)) = [] := by
    rw [List.filter_eq_nil_iff]
    intro x hx
    obtain ⟨i, hi, hget⟩ := List.mem_iff_getElem.mp hx
    have hlt : (l.take s).length = min s l.length := by simp
    have hilen : i < l.length := by omega
    have his : i < s := by omega
    have hxlt : time x < t0 := by
      have hx' : x = l.getD i default := by
        rw [List.getD_eq_getElem l default hilen, ← hget, List.getElem_take]
      rw [hx']
      exact hslt i his
    simp only [Bool.and_eq_true, decide_eq_true_eq, not_and]
    intro h0
    exact absurd hxlt (not_lt.mpr h0)
  have hmidlen : ((l.drop s).take (e - s)).length = e - s := by
    rw [List.length_take, List.length_drop]
    omega
  have hmid : ((l.drop s).take (e - s)).filter
      (fun x => decide (t0 ≤ time x) && decide (time x ≤ t1))
      = (l.drop s).take (e - s) := by
    rw [List.filter_eq_self]
    intro x hx
    obtain ⟨i, hi, hget⟩ := List.mem_iff_getElem.mp hx
    rw [hmidlen] at hi
    have hie : s + i < e := by omega
    have hilen : s + i < l.length := by omega
    have hx' : x = l.getD (s + i) default := by
      rw [List.getD_eq_getElem l default hilen, ← hget, List.getElem_take,
        List.getElem_drop]
    have h1 : ¬ time (l.getD (s + i) default) < t0 := hsge (s + i)
      (by omega) hilen
    have h2 : time (l.getD (s + i) default) ≤ t1 := helt (s + i)
      (by omega) hie
    rw [hx']
    simp only [Bool.and_eq_true, decide_eq_true_eq]
    exact ⟨le_of_not_lt h1, h2⟩
  have hpost : (l.drop e).filter
      (fun x => decide (t0 ≤ time x) && decide (time x ≤ t1)) = [] := by
    rw [List.filter_eq_nil_iff]
    intro x hx
    obtain ⟨i, hi, hget⟩ := List.mem_iff_getElem.mp hx
    have hilen : e + i < l.length := by
      have := List.length_drop e l
      omega
    have hx' : x = l.getD (e + i) default := by
      rw [List.getD_eq_getElem l default hilen, ← hget, List.getElem_drop]
    have : ¬ time x ≤ t1 := by
      rw [hx']
      exact hege (e + i) (by omega) hilen
    simp only [Bool.and_eq_true, decide_eq_true_eq, not_and]
    intro _
    exact this
  rw [hpre, hmid, hpost]
  simp

/-- Witness for C3 at a concrete sorted list and window. -/
theorem getItemsInTimeRange_eq_linear_filter_witness :
    TimeSorted (fun x => x) [(1 : ℚ), 2, 3]
    ∧ getItemsInTimeRange (fun x => x) [(1 : ℚ), 2, 3] (3/2) 3
      = ([(1 : ℚ), 2, 3].filter fun x =>
          decide ((3/2 : ℚ) ≤ x) && decide (x ≤ 3)) := by
  have hs : TimeSorted (fun x => x) [(1 : ℚ), 2, 3] := by
    unfold TimeSorted
    norm_num
  exact ⟨hs, getItemsInTimeRange_eq_linear_filter (fun x => x)
    [(1 : ℚ), 2, 3] hs (3/2) 3⟩

/-! ## Core data model

Embeds the dataclasses of src/debug/log_parser.py used by the failure
analyzer.  Floats become `ℚ`. -/

/-- Python `DPDecision` dataclass (log_parser.py lines 24-37). -/
structure DPDecision where
  column : Nat
  row : Nat
  pitch : Nat
  time : ℚ
  vertical_rule : ℚ
  horizontal_rule : ℚ
  final_value : ℚ
  match_flag : Bool
  used_pitches : List Nat
  unused_count : Nat
  line_number : Nat
deriving DecidableEq, Inhabited

/-- Python `Match` dataclass (log_parser.py lines 40-47). -/
structure MatchEv where
  row : Nat
  pitch : Nat
  time : ℚ
  score : ℚ
  line_number : Nat
deriving DecidableEq, Inhabited

/-- Python `NoMatch` dataclass (log_parser.py lines 50-55). -/
structure NoMatchEv where
  pitch : Nat
  time : ℚ
  line_number : Nat
deriving DecidableEq, Inhabited

/-- Python slicing `lst[-count:] if len(lst) >= count else lst`.  For a
positive `count` this is the last `min count (len lst)` elements; Python's
`lst[-0:]` is the whole list. -/
def pyLastN {B : Type} (count : Nat) (l : List B) : List B :=
  if count = 0 then l else l.drop (l.length - count)

/-- Sort key of `_get_context_before_time`: `lambda d: (d.time, d.column,
d.row)`.  Python's `list.sort` is a stable sort; `List.insertionSort` with
this non-strict lexicographic order is likewise stable, so both compute the
same list. -/
def decKeyLE (a b : DPDecision) : Prop :=
  a.time < b.time ∨ (a.time = b.time ∧
    (a.column < b.column ∨ (a.column = b.column ∧ a.row ≤ b.row)))

instance : DecidableRel decKeyLE := fun a b => by
  unfold decKeyLE; infer_instance

/-- Sort key of `_get_matches_before_time`: `lambda m: m.time`. -/
def matchTimeLE (a b : MatchEv) : Prop :=
  a.time ≤ b.time

instance : DecidableRel matchTimeLE := fun a b => by
  unfold matchTimeLE; infer_instance

theorem decKeyLE_trans (a b c : DPDecision) (h1 : decKeyLE a b)
    (h2 : decKeyLE b c) : decKeyLE a c := by
  unfold decKeyLE at h1 h2 ⊢
  rcases h1 with h1 | ⟨h1e, h1'⟩ <;> rcases h2 with h2 | ⟨h2e, h2'⟩
  · exact Or.inl (lt_trans h1 h2)
  · exact Or.inl (h2e ▸ h1)
  · exact Or.inl (h1e ▸ h2)
  · refine Or.inr ⟨h1e.trans h2e, ?_⟩
    rcases h1' with h1' | ⟨h1c, h1r⟩ <;> rcases h2' with h2' | ⟨h2c, h2r⟩
    · exact Or.inl (lt_trans h1' h2')
    · exact Or.inl (h2c ▸ h1')
    · exact Or.inl (h1c ▸ h2')
    · exact Or.inr ⟨h1c.trans h2c, le_trans h1r h2r⟩

theorem decKeyLE_total (a b : DPDecision) : decKeyLE a b ∨ decKeyLE b a := by
  unfold decKeyLE
  rcases lt_trichotomy a.time b.time with h | h | h
  · exact Or.inl (Or.inl h)
  · rcases lt_trichotomy a.column b.column with hc | hc | hc
    · exact Or.inl (Or.inr ⟨h, Or.inl hc⟩)
    · rcases le_total a.row b.row with hr | hr
      · exact Or.inl (Or.inr ⟨h, Or.inr ⟨hc, hr⟩⟩)
      · exact Or.inr (Or.inr ⟨h.symm, Or.inr ⟨hc.symm, hr⟩⟩)
    · exact Or.inr (Or.inr ⟨h.symm, Or.inl hc⟩)
  · exact Or.inr (Or.inl h)

instance : IsTrans DPDecision decKeyLE := ⟨decKeyLE_trans⟩

instance : IsTotal DPDecision decKeyLE := ⟨decKeyLE_total⟩

instance : IsTrans MatchEv matchTimeLE :=
  ⟨fun _ _ _ h1 h2 => le_trans h1 h2⟩

instance : IsTotal MatchEv matchTimeLE :=
  ⟨fun a b => le_total a.time b.time⟩

/-- Embeds `FailureAnalyzer._get_context_before_time(target_time, count)`
(src/debug/src/failure_analyzer.py lines 367-371): filter decisions with
`d.time <= target_time` (inclusive), stable-sort by `(time, column, row)`,
keep the last `count`. -/
def getContextBeforeTime (dps : List DPDecision) (targetTime : ℚ)
    (count : Nat) : List DPDecision :=
  pyLastN count
    (List.insertionSort decKeyLE
      (dps.filter fun d => decide (d.time ≤ targetTime)))

/-- Embeds `FailureAnalyzer._get_matches_before_time(target_time, count)`
(src/debug/src/failure_analyzer.py lines 373-377): filter matches with
`m.time < target_time` (strict), stable-sort by time, keep the last
`count`. -/
def getMatchesBeforeTime (ms : List MatchEv) (targetTime : ℚ)
    (count : Nat) : List MatchEv :=
  pyLastN count
    (List.insertionSort matchTimeLE
      (ms.filter fun m => decide (m.time < targetTime)))

theorem pyLastN_subset {B : Type} (count : Nat) (l : List B) :
    pyLastN count l ⊆ l := by
  unfold pyLastN
  by_cases h : count = 0
  · simp [h]
  · simp only [h, if_false]
    exact List.drop_subset _ l

theorem pyLastN_suffix {B : Type} (count : Nat) (l : List B) :
    pyLastN count l <:+ l := by
  unfold pyLastN
  by_cases h : count = 0
  · simp [h]
  · simp only [h, if_false]
    exact List.drop_suffix _ l

theorem pyLastN_pairwise {B : Type} {R : B → B → Prop} (count : Nat)
    {l : List B} (h : l.Pairwise R) : (pyLastN count l).Pairwise R :=
  List.Pairwise.sublist (pyLastN_suffix count l).sublist h

/-- The window-boundary semantics of C10, bundled: the context-decision
query is inclusive at the failure time, the preceding-match query is
strictly exclusive, both results are time-sorted, and both are the last-N
suffix of the sorted filtered data. -/
def ContextWindowSemantics (dps : List DPDecision) (ms : List MatchEv)
    (t : ℚ) (n : Nat) : Prop :=
  (∀ d ∈ getContextBeforeTime dps t n, d.time ≤ t)
  ∧ (∀ d ∈ dps, d.time = t →
      d ∈ List.insertionSort decKeyLE
        (dps.filter fun d => decide (d.time ≤ t)))
  ∧ (∀ m ∈ getMatchesBeforeTime ms t n, m.time < t)
  ∧ (∀ m ∈ ms, m.time = t → m ∉ getMatchesBeforeTime ms t n)
  ∧ (getContextBeforeTime dps t n).Pairwise (fun a b => a.time ≤ b.time)
  ∧ (getMatchesBeforeTime ms t n).Pairwise (fun a b => a.time ≤ b.time)
  ∧ (getContextBeforeTime dps t n).length ≤ n
  ∧ (getMatchesBeforeTime ms t n).length ≤ n
  ∧ (getContextBeforeTime dps t n) <:+
      (List.insertionSort decKeyLE
        (dps.filter fun d => decide (d.time ≤ t)))
  ∧ (getMatchesBeforeTime ms t n) <:+
      (List.insertionSort matchTimeLE
        (ms.filter fun m => decide (m.time < t)))

/-- C10: the preceding-matches list allows only times strictly before the
failure time while the context-decisions list is inclusive at the failure
time; both lists are sorted by time and truncated to the last N. -/
theorem context_window_semantics (dps : List DPDecision) (ms : List MatchEv)
    (t : ℚ) (n : Nat) (hn : 0 < n) : ContextWindowSemantics dps ms t n := by
  have hctxmem : ∀ d ∈ getContextBeforeTime dps t n, d.time ≤ t := by
    intro d hd
    have hd1 : d ∈ List.insertionSort decKeyLE
        (dps.filter fun d => decide (d.time ≤ t)) := pyLastN_subset _ _ hd
    have hd2 : d ∈ dps.filter fun d => decide (d.time ≤ t) :=
      (List.perm_insertionSort decKeyLE _).mem_iff.mp hd1
    have := List.of_mem_filter hd2
    simpa using this
  have hmatmem : ∀ m ∈ getMatchesBeforeTime ms t n, m.time < t := by
    intro m hm
    have hm1 : m ∈ List.insertionSort matchTimeLE
        (ms.filter fun m => decide (m.time < t)) := pyLastN_subset _ _ hm
    have hm2 : m ∈ ms.filter fun m => decide (m.time < t) :=
      (List.perm_insertionSort matchTimeLE _).mem_iff.mp hm1
    have := List.of_mem_filter hm2
    simpa using this
  refine ⟨hctxmem, ?_, hmatmem, ?_, ?_, ?_, ?_, ?_,
    pyLastN_suffix _ _, pyLastN_suffix _ _⟩
  · intro d hd hdt
    refine (List.perm_insertionSort decKeyLE _).mem_iff.mpr ?_
    exact List.mem_filter.mpr ⟨hd, by simp [hdt]⟩
  · intro m hm hmt hmem
    exact absurd (hmatmem m hmem) (by simp [hmt])
  · refine pyLastN_pairwise n ?_
    have hsort := List.sorted_insertionSort decKeyLE
      (dps.filter fun d => decide (d.time ≤ t))
    refine hsort.imp ?_
    intro a b hab
    rcases hab with h | ⟨he, _⟩
    · exact le_of_lt h
    · exact le_of_eq he
  · refine pyLastN_pairwise n ?_
    have hsort := List.sorted_insertionSort matchTimeLE
      (ms.filter fun m => decide (m.time < t))
    exact hsort.imp fun hab => hab
  · unfold getContextBeforeTime pyLastN
    simp only [show ¬ n = 0 by omega, if_false]
    rw [List.length_drop]
    omega
  · unfold getMatchesBeforeTime pyLastN
    simp only [show ¬ n = 0 by omega, if_false]
    rw [List.length_drop]
    omega

/-! ## Comprehensive event data model

Embeds the detail-event dataclasses of src/debug/log_parser.py (lines
128-213) that `FailureAnalyzer` consumes, and the time-annotated copies
(`_cached_time` entries) built by `_build_performance_caches`. -/

/-- Python `TimingCheck` dataclass. -/
structure TimingCheck where
  prev_time : ℚ
  curr_time : ℚ
  ioi : ℚ
  span : ℚ
  limit : ℚ
  timing_pass : Bool
  constraint_type : String
  line_number : Nat
deriving DecidableEq, Inhabited

/-- Python `MatchTypeAnalysis` dataclass. -/
structure MatchTypeAnalysis where
  pitch : Nat
  is_chord : Bool
  is_trill : Bool
  is_grace : Bool
  is_extra : Bool
  is_ignored : Bool
  already_used : Bool
  timing_ok : Bool
  ornament_info : String
  line_number : Nat
deriving DecidableEq, Inhabited

/-- Python `HorizontalRule` dataclass. -/
structure HorizontalRule where
  row : Nat
  prev_value : ℚ
  pitch : Nat
  ioi : ℚ
  limit : ℚ
  timing_pass : Bool
  match_type : String
  result : ℚ
  line_number : Nat
deriving DecidableEq, Inhabited

/-- Python `VerticalRule` dataclass. -/
structure VerticalRule where
  row : Nat
  up_value : ℚ
  penalty : ℚ
  result : ℚ
  start_point : Bool
  line_number : Nat
deriving DecidableEq, Inhabited

/-- Python `CellDecision` dataclass extended with the `_cached_time` key added by
`_build_performance_caches`. -/
structure CellDecisionT where
  row : Nat
  vertical_result : ℚ
  horizontal_result : ℚ
  winner : String
  updated : Bool
  final_value : ℚ
  reason : String
  line_number : Nat
  cached_time : ℚ
deriving DecidableEq, Inhabited

/-- Python `ScoreCompetition` dataclass extended with the `_cached_time` key. -/
structure ScoreCompetitionT where
  row : Nat
  current_score : ℚ
  top_score : ℚ
  beats_top : Bool
  margin : ℚ
  confidence : ℚ
  line_number : Nat
  cached_time : ℚ
deriving DecidableEq, Inhabited

/-- Python `OrnamentProcessing` dataclass. -/
structure OrnamentProcessing where
  pitch : Nat
  ornament_type : String
  trill_pitches : List Nat
  grace_pitches : List Nat
  ignore_pitches : List Nat
  credit : ℚ
  line_number : Nat
deriving DecidableEq, Inhabited

/-- Python `MatrixState` dataclass (window coordinates as ints). -/
structure MatrixState where
  column : Int
  window_start : Int
  window_end : Int
  window_center : Int
  current_base : Int
  prev_base : Int
  current_upper : Int
  prev_upper : Int
  line_number : Nat
deriving DecidableEq, Inhabited

/-- Python `ArrayNeighborhood` dataclass. -/
structure ArrayNeighborhood where
  row : Nat
  center_value : ℚ
  neighbor_values : List ℚ
  positions : List Int
  line_number : Nat
deriving DecidableEq, Inhabited

/-- Python `WindowMovement` dataclass. -/
structure WindowMovement where
  old_center : Int
  new_center : Int
  old_start : Int
  new_start : Int
  old_end : Int
  new_end : Int
  reason : String
  line_number : Nat
deriving DecidableEq, Inhabited

/-! ## Context synthesizer and its rounded-window cache

Embeds `FailureAnalyzer._extract_comprehensive_context` (lines 537-699) and
`FailureAnalyzer._filter_cached_context_for_pitch` (lines 701-744).  The
derived sub-analyses that only reformat one of the raw lists into capped
narrative text (`_analyze_timing_failures`, `_analyze_horizontal_rules`:
both build message strings with formatted floats) are omitted from the
context record; each is a pure function of a raw list that the record does
carry (`failedChecks`, `calculations`), so any divergence in them shows up
in the record as well.  All the other derived aggregates are embedded. -/

/-- Python `max` on a non-empty list of floats (the empty case never
reaches `max` in the source: it is guarded). -/
def pyMaxQ : List ℚ → ℚ
  | [] => 0
  | x :: xs => xs.foldl max x

/-- Python `min` on a non-empty list of floats. -/
def pyMinQ : List ℚ → ℚ
  | [] => 0
  | x :: xs => xs.foldl min x

/-- Insertion-ordered counter bump, the dict pattern of
`_count_match_types` / `_count_decision_winners`. -/
def countBump : List (String × Nat) → String → List (String × Nat)
  | [], k => [(k, 1)]
  | (k', n) :: rest, k =>
      if k' = k then (k', n + 1) :: rest else (k', n) :: countBump rest k

/-- Embeds `FailureAnalyzer._count_match_types` (lines 792-803): every typed rule
carries `match_type`, so the missing-key error path is unreachable. -/
def countMatchTypes (hs : List HorizontalRule) : List (String × Nat) :=
  hs.foldl (fun m h => countBump m h.match_type) []

/-- Embeds `FailureAnalyzer._count_decision_winners` (lines 805-816). -/
def countDecisionWinners (ds : List CellDecisionT) : List (String × Nat) :=
  ds.foldl (fun m d => countBump m d.winner) []

/-- Result of `FailureAnalyzer._analyze_pitch_categorization`
(lines 781-790): per-category counts of true flags. -/
structure PitchCategorization where
  chord : Nat
  trill : Nat
  grace : Nat
  extra : Nat
  ignored : Nat
deriving DecidableEq, Inhabited

def pitchCategorizationOf (ms : List MatchTypeAnalysis) :
    PitchCategorization where
  chord := (ms.filter fun m => m.is_chord).length
  trill := (ms.filter fun m => m.is_trill).length
  grace := (ms.filter fun m => m.is_grace).length
  extra := (ms.filter fun m => m.is_extra).length
  ignored := (ms.filter fun m => m.is_ignored).length

/-- One record of `_analyze_vertical_rules` (lines 958-972). -/
structure VRulePenaltyDetail where
  row : Nat
  penalty : ℚ
  up_value : ℚ
  result : ℚ
  start_point : Bool
deriving DecidableEq, Inhabited

def analyzeVerticalRules (vs : List VerticalRule) : List VRulePenaltyDetail :=
  (vs.take 5).map fun r =>
    ⟨r.row, r.penalty, r.up_value, r.result, r.start_point⟩

/-- One record of `_analyze_cell_decisions` (lines 974-991). -/
structure CellDecisionDetail where
  row : Nat
  vertical_value : ℚ
  horizontal_value : ℚ
  winner : String
  reason : String
  updated : Bool
  margin : ℚ
  final_value : ℚ
deriving DecidableEq, Inhabited

def analyzeCellDecisions (ds : List CellDecisionT) :
    List CellDecisionDetail :=
  (ds.take 5).map fun d =>
    ⟨d.row, d.vertical_result, d.horizontal_result, d.winner, d.reason,
      d.updated, |d.vertical_result - d.horizontal_result|, d.final_value⟩

/-- Result of `_analyze_matrix_states` (lines 993-1008): fields of the most
recent matrix state, `none` for the empty-dict case. -/
structure MatrixWindowInfo where
  window_start : Int
  window_end : Int
  window_center : Int
  current_base : Int
  prev_base : Int
  current_upper : Int
  prev_upper : Int
  window_size : Int
deriving DecidableEq, Inhabited

def analyzeMatrixStates (ms : List MatrixState) : Option MatrixWindowInfo :=
  match ms.getLast? with
  | none => none
  | some m => some ⟨m.window_start, m.window_end, m.window_center,
      m.current_base, m.prev_base, m.current_upper, m.prev_upper,
      m.window_end - m.window_start⟩

/-- One record of `_analyze_array_neighborhoods` (lines 1010-1024). -/
structure ArrayNbhdDetail where
  row : Nat
  center_value : ℚ
  neighborhood_values : List ℚ
  max_value : ℚ
  positions : List Int
deriving DecidableEq, Inhabited

def analyzeArrayNeighborhoods (arrs : List ArrayNeighborhood) :
    List ArrayNbhdDetail :=
  (arrs.take 3).map fun a =>
    ⟨a.row, a.center_value, a.neighbor_values.take 5,
      if a.neighbor_values.isEmpty then 0 else pyMaxQ a.neighbor_values,
      a.positions⟩

/-- One record of `_analyze_window_movements` (lines 1026-1039). -/
structure WindowMoveDetail where
  old_window : Int × Int
  new_window : Int × Int
  size_change : Int
  position_shift : Int
  reason : String
deriving DecidableEq, Inhabited

def analyzeWindowMovements (ws : List WindowMovement) :
    List WindowMoveDetail :=
  (ws.take 3).map fun w =>
    ⟨(w.old_start, w.old_end), (w.new_start, w.new_end),
      (w.new_end - w.new_start) - (w.old_end - w.old_start),
      w.new_start - w.old_start, w.reason⟩

/-- One record of `_analyze_score_competition` (lines 1041-1055). -/
structure ScoreCompDetail where
  row : Nat
  current_score : ℚ
  top_score : ℚ
  margin : ℚ
  beats_top : Bool
  confidence : ℚ
deriving DecidableEq, Inhabited

def analyzeScoreCompetitionDetails (ss : List ScoreCompetitionT) :
    List ScoreCompDetail :=
  (ss.take 5).map fun s =>
    ⟨s.row, s.current_score, s.top_score, s.current_score - s.top_score,
      s.beats_top, s.confidence⟩

/-- One record of `_analyze_ornament_processing` (lines 1057-1071). -/
structure OrnamentDetail where
  pitch : Nat
  ornament_type : String
  trill_notes : List Nat
  grace_notes : List Nat
  ignored_notes : List Nat
  credit_applied : ℚ
deriving DecidableEq, Inhabited

def analyzeOrnamentProcessing (os : List OrnamentProcessing) :
    List OrnamentDetail :=
  (os.take 3).map fun o =>
    ⟨o.pitch, o.ornament_type, o.trill_pitches, o.grace_pitches,
      o.ignore_pitches, o.credit⟩

/-- The `timing_constraints` sub-dict of the context (minus the narrative
`detailed_failures`, a pure function of `failedChecks`). -/
structure TimingConstraintsCtx where
  failedChecks : List TimingCheck
  passedChecks : List TimingCheck
  totalChecks : Nat
deriving DecidableEq, Inhabited

/-- The `match_type_analysis` sub-dict. -/
structure MatchTypeCtx where
  classifications : List MatchTypeAnalysis
  pitchCategorization : PitchCategorization
deriving DecidableEq, Inhabited

/-- The `horizontal_rule_analysis` sub-dict (minus the narrative
`detailed_calculations`, a pure function of `calculations`). -/
structure HRuleCtx where
  calculations : List HorizontalRule
  timingFailures : List HorizontalRule
  matchTypeDistribution : List (String × Nat)
deriving DecidableEq, Inhabited

/-- The `vertical_rule_analysis` sub-dict. -/
structure VRuleCtx where
  calculations : List VerticalRule
  detailedPenalties : List VRulePenaltyDetail
deriving DecidableEq, Inhabited

/-- The `cell_decisions` sub-dict. -/
structure CellDecisionsCtx where
  decisions : List CellDecisionT
  winnerDistribution : List (String × Nat)
  updatePatterns : List CellDecisionT
  detailedDecisions : List CellDecisionDetail
deriving DecidableEq, Inhabited

/-- The `matrix_state` sub-dict. -/
structure MatrixStateCtx where
  states : List MatrixState
  windowInfo : Option MatrixWindowInfo
deriving DecidableEq, Inhabited

/-- The `array_neighborhoods` sub-dict. -/
structure ArrayNbhdCtx where
  neighborhoods : List ArrayNeighborhood
  valueAnalysis : List ArrayNbhdDetail
deriving DecidableEq, Inhabited

/-- The `window_movements` sub-dict. -/
structure WindowMoveCtx where
  movements : List WindowMovement
  movementAnalysis : List WindowMoveDetail
deriving DecidableEq, Inhabited

/-- The `score_competition` sub-dict. -/
structure ScoreCompetitionCtx where
  scoreProgression : List ℚ
  confidenceLevels : List ℚ
  beatsTopScore : Bool
  detailedCompetition : List ScoreCompDetail
deriving DecidableEq, Inhabited

/-- The `ornament_context` sub-dict. -/
structure OrnamentCtx where
  ornamentTypes : List String
  creditApplied : ℚ
  hasOrnaments : Bool
  detailedOrnaments : List OrnamentDetail
deriving DecidableEq, Inhabited

/-- The `algorithmic_insights` sub-dict. -/
structure InsightsCtx where
  likelyTimingIssue : Bool
  ornamentInterference : Bool
  scoreCompetitionActive : Bool
  decisionComplexity : Nat
deriving DecidableEq, Inhabited

/-- The comprehensive context dict returned by
`_extract_comprehensive_context`. -/
structure CompContext where
  timingConstraints : TimingConstraintsCtx
  matchTypeAnalysis : MatchTypeCtx
  horizontalRuleAnalysis : HRuleCtx
  verticalRuleAnalysis : VRuleCtx
  cellDecisions : CellDecisionsCtx
  matrixState : MatrixStateCtx
  arrayNeighborhoods : ArrayNbhdCtx
  windowMovements : WindowMoveCtx
  scoreCompetition : ScoreCompetitionCtx
  ornamentContext : OrnamentCtx
  algorithmicInsights : InsightsCtx
deriving DecidableEq, Inhabited

/-- The payload stored in `self._time_window_cache[cache_key]`
(lines 685-697).  Note that `all_match_types`, `all_h_rules` and
`all_ornaments` receive the already-pitch-filtered `relevant_*` lists. -/
structure CachedWindow where
  timingConstraints : TimingConstraintsCtx
  allMatchTypes : List MatchTypeAnalysis
  allHRules : List HorizontalRule
  allVRules : List VerticalRule
  allOrnaments : List OrnamentProcessing
  cellDecisions : CellDecisionsCtx
  scoreCompetition : ScoreCompetitionCtx
  matrixState : MatrixStateCtx
  arrayNeighborhoods : ArrayNbhdCtx
  windowMovements : WindowMoveCtx
  algorithmicInsights : InsightsCtx
deriving DecidableEq, Inhabited

/-- The per-analysis caches built once by `_build_performance_caches`, plus
the core event lists of the analyzer instance. -/
structure AnalyzerState where
  dpDecisions : List DPDecision
  matchEvents : List MatchEv
  noMatches : List NoMatchEv
  lineToTime : List (Nat × ℚ)
  timingChecksByTime : List TimingCheck
  cellDecisionsWithTime : List CellDecisionT
  scoreCompetitionsWithTime : List ScoreCompetitionT
  matchTypeAnalyses : List MatchTypeAnalysis
  horizontalRules : List HorizontalRule
  verticalRules : List VerticalRule
  matrixStates : List MatrixState
  arrayNeighborhoods : List ArrayNeighborhood
  windowMovements : List WindowMovement
  ornamentProcessings : List OrnamentProcessing
  timeWindowCache : List ((ℚ × ℚ) × CachedWindow)
deriving DecidableEq, Inhabited

/-- Dict lookup in `self._line_to_time_cache` (first binding wins; the
Python dict has unique keys). -/
def ltLookup : List (Nat × ℚ) → Nat → Option ℚ
  | [], _ => none
  | (k, v) :: rest, n => if k = n then some v else ltLookup rest n

/-- Dict lookup in `self._time_window_cache`. -/
def cacheLookup : List ((ℚ × ℚ) × CachedWindow) → ℚ × ℚ →
    Option CachedWindow
  | [], _ => none
  | (k, v) :: rest, key => if k = key then some v else cacheLookup rest key

/-- Floor on rationals (kernel-reducible). -/
def qfloor (q : ℚ) : ℤ :=
  q.num.fdiv (q.den : ℤ)

/-- Python `round` (banker's rounding, round half to even). -/
def roundHalfEven (q : ℚ) : ℤ :=
  let f := qfloor q
  let frac := q - (f : ℚ)
  if frac < 1/2 then f
  else if frac > 1/2 then f + 1
  else if f % 2 = 0 then f else f + 1

/-- Python `round(x, 1)`. -/
def roundTo1 (q : ℚ) : ℚ :=
  ((roundHalfEven (q * 10) : ℤ) : ℚ) / 10

/-- Membership test `start_time <= t <= end_time` through the line-to-time
cache, shared by the vertical-rule / matrix / array / window loops of the
extraction (lines 576-614). -/
def lineInWindow (lt : List (Nat × ℚ)) (startT endT : ℚ) (line : Nat) :
    Bool :=
  match ltLookup lt line with
  | none => false
  | some t => decide (startT ≤ t) && decide (t ≤ endT)

/-- The cache-miss body of `_extract_comprehensive_context`
(lines 551-699): computes every `relevant_*` list, the context dict, and
the payload stored into the cache. -/
def extractFresh (st : AnalyzerState) (failureTime : ℚ)
    (failurePitch : Nat) : CompContext × CachedWindow :=
  let startT := failureTime - 1
  let endT := failureTime + 1
  let relevantTiming := getItemsInTimeRange (fun t => t.curr_time)
    st.timingChecksByTime startT endT
  let relevantMatchTypes := st.matchTypeAnalyses.filter
    fun m => m.pitch = failurePitch
  let relevantHRules := st.horizontalRules.filter
    fun h => h.pitch = failurePitch
  let relevantDecisions := getItemsInTimeRange (fun d => d.cached_time)
    st.cellDecisionsWithTime startT endT
  let relevantScores := getItemsInTimeRange (fun s => s.cached_time)
    st.scoreCompetitionsWithTime startT endT
  let relevantVRules := st.verticalRules.filter
    fun v => lineInWindow st.lineToTime startT endT v.line_number
  let relevantMatrices := st.matrixStates.filter
    fun m => lineInWindow st.lineToTime startT endT m.line_number
  let relevantArrays := st.arrayNeighborhoods.filter
    fun a => lineInWindow st.lineToTime startT endT a.line_number
  let relevantWindows := st.windowMovements.filter
    fun w => lineInWindow st.lineToTime startT endT w.line_number
  let relevantOrnaments := st.ornamentProcessings.filter
    fun o => o.pitch = failurePitch
  let failedChecks := relevantTiming.filter fun t => !t.timing_pass
  let passedChecks := relevantTiming.filter fun t => t.timing_pass
  let timingCtx : TimingConstraintsCtx :=
    ⟨failedChecks, passedChecks, relevantTiming.length⟩
  let cellCtx : CellDecisionsCtx :=
    ⟨relevantDecisions,
      if relevantDecisions.isEmpty then []
      else countDecisionWinners relevantDecisions,
      relevantDecisions.filter fun d => d.updated,
      analyzeCellDecisions relevantDecisions⟩
  let scoreCtx : ScoreCompetitionCtx :=
    ⟨relevantScores.map fun s => s.current_score,
      relevantScores.map fun s => s.confidence,
      relevantScores.any fun s => s.beats_top,
      analyzeScoreCompetitionDetails relevantScores⟩
  let matrixCtx : MatrixStateCtx :=
    ⟨relevantMatrices, analyzeMatrixStates relevantMatrices⟩
  let arrayCtx : ArrayNbhdCtx :=
    ⟨relevantArrays, analyzeArrayNeighborhoods relevantArrays⟩
  let windowCtx : WindowMoveCtx :=
    ⟨relevantWindows, analyzeWindowMovements relevantWindows⟩
  let insightsCtx : InsightsCtx :=
    ⟨!failedChecks.isEmpty, !relevantOrnaments.isEmpty,
      !relevantScores.isEmpty,
      if relevantDecisions.isEmpty then 0
      else ((relevantDecisions.map fun d => d.reason).dedup).length⟩
  let ctx : CompContext :=
    { timingConstraints := timingCtx
      matchTypeAnalysis :=
        ⟨relevantMatchTypes, pitchCategorizationOf relevantMatchTypes⟩
      horizontalRuleAnalysis :=
        ⟨relevantHRules,
          relevantHRules.filter fun h => !h.timing_pass,
          if relevantHRules.isEmpty then []
          else countMatchTypes relevantHRules⟩
      verticalRuleAnalysis :=
        ⟨relevantVRules, analyzeVerticalRules relevantVRules⟩
      cellDecisions := cellCtx
      matrixState := matrixCtx
      arrayNeighborhoods := arrayCtx
      windowMovements := windowCtx
      scoreCompetition := scoreCtx
      ornamentContext :=
        ⟨relevantOrnaments.map fun o => o.ornament_type,
          (relevantOrnaments.map fun o => o.credit).sum,
          !relevantOrnaments.isEmpty,
          analyzeOrnamentProcessing relevantOrnaments⟩
      algorithmicInsights := insightsCtx }
  let payload : CachedWindow :=
    { timingConstraints := timingCtx
      allMatchTypes := relevantMatchTypes
      allHRules := relevantHRules
      allVRules := relevantVRules
      allOrnaments := relevantOrnaments
      cellDecisions := cellCtx
      scoreCompetition := scoreCtx
      matrixState := matrixCtx
      arrayNeighborhoods := arrayCtx
      windowMovements := windowCtx
      algorithmicInsights := insightsCtx }
  (ctx, payload)

/-- Embeds `FailureAnalyzer._filter_cached_context_for_pitch` (lines 701-744). -/
def filterCachedContextForPitch (cached : CachedWindow)
    (failurePitch : Nat) : CompContext :=
  let relevantMatchTypes := cached.allMatchTypes.filter
    fun m => m.pitch = failurePitch
  let relevantHRules := cached.allHRules.filter
    fun h => h.pitch = failurePitch
  let allVRules := cached.allVRules
  let relevantOrnaments := cached.allOrnaments.filter
    fun o => o.pitch = failurePitch
  { timingConstraints := cached.timingConstraints
    matchTypeAnalysis :=
      ⟨relevantMatchTypes, pitchCategorizationOf relevantMatchTypes⟩
    horizontalRuleAnalysis :=
      ⟨relevantHRules,
        relevantHRules.filter fun h => !h.timing_pass,
        if relevantHRules.isEmpty then []
        else countMatchTypes relevantHRules⟩
    verticalRuleAnalysis := ⟨allVRules, analyzeVerticalRules allVRules⟩
    cellDecisions := cached.cellDecisions
    matrixState := cached.matrixState
    arrayNeighborhoods := cached.arrayNeighborhoods
    windowMovements := cached.windowMovements
    scoreCompetition := cached.scoreCompetition
    ornamentContext :=
      ⟨relevantOrnaments.map fun o => o.ornament_type,
        (relevantOrnaments.map fun o => o.credit).sum,
        !relevantOrnaments.isEmpty,
        analyzeOrnamentProcessing relevantOrnaments⟩
    algorithmicInsights := cached.algorithmicInsights }

/-- Embeds `FailureAnalyzer._extract_comprehensive_context` (lines 537-699): a
1.0-second window around the failure, a cache key rounded to 0.1s, a
cache hit filtered per pitch, and a cache miss computed fresh and stored. -/
def extractComprehensiveContext (st : AnalyzerState) (failureTime : ℚ)
    (failurePitch : Nat) : CompContext × AnalyzerState :=
  let startT := failureTime - 1
  let endT := failureTime + 1
  let cacheKey := (roundTo1 startT, roundTo1 endT)
  match cacheLookup st.timeWindowCache cacheKey with
  | some cached => (filterCachedContextForPitch cached failurePitch, st)
  | none =>
      let (ctx, payload) := extractFresh st failureTime failurePitch
      (ctx, { st with
        timeWindowCache := st.timeWindowCache ++ [(cacheKey, payload)] })

/-- A match-type classification for pitch 62, landing on a log line inside
the failure windows used below. -/
def mtaPitch62 : MatchTypeAnalysis :=
  ⟨62, false, false, false, false, false, false, true, "na", 10⟩

/-- Analyzer state holding one match-type entry (pitch 62) and an empty
rounded-window cache: the input on which the cache misbehaves. -/
def stCacheBug : AnalyzerState :=
  { dpDecisions := []
    matchEvents := []
    noMatches := []
    lineToTime := []
    timingChecksByTime := []
    cellDecisionsWithTime := []
    scoreCompetitionsWithTime := []
    matchTypeAnalyses := [mtaPitch62]
    horizontalRules := []
    verticalRules := []
    matrixStates := []
    arrayNeighborhoods := []
    windowMovements := []
    ornamentProcessings := []
    timeWindowCache := [] }

/-- C2 (refuted): two failures at time `2.0` share the rounded cache key but
differ in pitch (60, then 62).  The first (cache-miss) call stores the
pitch-60-filtered match-type list as `all_match_types`; the second call hits
the cache and, after re-filtering for pitch 62, returns zero
classifications — while a forced cache-bypass recomputation returns the
pitch-62 entry.  The cached window slice therefore does not contain the
full, unfiltered per-kind data, contradicting both the claim and the
source comment "includes all pitch data". -/
theorem cached_context_diverges_from_bypass :
    (extractComprehensiveContext
        (extractComprehensiveContext stCacheBug 2 60).2 2
        62).1.matchTypeAnalysis.classifications = []
    ∧ (extractFresh (extractComprehensiveContext stCacheBug 2 60).2 2
        62).1.matchTypeAnalysis.classifications = [mtaPitch62]
    ∧ (extractComprehensiveContext
        (extractComprehensiveContext stCacheBug 2 60).2 2 62).1
      ≠ (extractFresh (extractComprehensiveContext stCacheBug 2 60).2 2
        62).1 := by
  have hmiss : extractComprehensiveContext stCacheBug 2 60
      = ((extractFresh stCacheBug 2 60).1,
        { stCacheBug with timeWindowCache :=
          [((roundTo1 (2 - 1), roundTo1 (2 + 1)),
            (extractFresh stCacheBug 2 60).2)] }) := by
    simp [extractComprehensiveContext, cacheLookup, stCacheBug]
  have hpayload : (extractFresh stCacheBug 2 60).2.allMatchTypes = [] := by
    simp [extractFresh, stCacheBug, mtaPitch62]
  have hhit : (extractComprehensiveContext
      (extractComprehensiveContext stCacheBug 2 60).2 2 62).1
      = filterCachedContextForPitch (extractFresh stCacheBug 2 60).2 62 := by
    rw [hmiss]
    simp [extractComprehensiveContext, cacheLookup]
  have h1 : (extractComprehensiveContext
      (extractComprehensiveContext stCacheBug 2 60).2 2
      62).1.matchTypeAnalysis.classifications = [] := by
    rw [hhit]
    simp [filterCachedContextForPitch, hpayload]
  have h2 : (extractFresh (extractComprehensiveContext stCacheBug 2 60).2 2
      62).1.matchTypeAnalysis.classifications = [mtaPitch62] := by
    rw [hmiss]
    simp [extractFresh, stCacheBug, mtaPitch62]
  refine ⟨h1, h2, ?_⟩
  intro h
  have := congrArg (fun c => c.matchTypeAnalysis.classifications) h
  simp only [h1, h2] at this
  exact absurd this (by simp)

/-! ## Failure detector

Embeds `FailureAnalyzer._analyze_timing_patterns`,
`_analyze_no_match_failure`, `_analyze_potential_wrong_matches` and
`_analyze_score_drops` (src/debug/src/failure_analyzer.py).  Python
exceptions become `Except.error`. -/

/-- Structural renderings of the two issue messages appended by
`_analyze_timing_patterns` (lines 406-411); the source formats them as
strings with the printed gap/delay. -/
inductive TimingIssue where
  | largeGap (gap : ℚ)
  | longDelay (delay : ℚ)
deriving DecidableEq

/-- Dict built by `_analyze_timing_patterns` (lines 395-413). -/
structure TimingAnalysis where
  decision_count : Nat
  time_span : ℚ
  average_ioi : ℚ
  ioi_variance : ℚ
  max_gap : ℚ
  min_gap : ℚ
  time_to_failure : ℚ
  issues : List TimingIssue
deriving DecidableEq, Inhabited

/-- Embeds `FailureAnalyzer._analyze_timing_patterns` (lines 379-415): raises for
fewer than two decisions; otherwise returns the statistics with
large-gap (over 1.0s) and long-delay (over 0.5s) issues. -/
def analyzeTimingPatterns (decisions : List DPDecision)
    (failureTime : ℚ) : Except String TimingAnalysis :=
  if decisions.length < 2 then
    .error "Cannot analyze timing patterns - need at least 2 decisions"
  else
    let times := decisions.map fun d => d.time
    let iois := List.zipWith (fun a b => b - a) times times.tail
    if iois.isEmpty then
      .error "No inter-onset intervals calculated"
    else if times.isEmpty then
      .error "No decision times found"
    else
      let avgIoi := iois.sum / (iois.length : ℚ)
      let maxGap := pyMaxQ iois
      let timeToFailure := failureTime - pyMaxQ times
      let issues :=
        (if maxGap > 1 then [TimingIssue.largeGap maxGap] else [])
        ++ (if timeToFailure > 1/2 then [TimingIssue.longDelay timeToFailure]
            else [])
      .ok
        { decision_count := decisions.length
          time_span := pyMaxQ times - pyMinQ times
          average_ioi := avgIoi
          ioi_variance :=
            (iois.map fun x => (x - avgIoi) * (x - avgIoi)).sum
              / (iois.length : ℚ)
          max_gap := maxGap
          min_gap := pyMinQ iois
          time_to_failure := timeToFailure
          issues := issues }

/-- Python `FailureContext` dataclass (lines 20-35).  The presentation strings
`expected_outcome` and `actual_outcome` (formatted-float prose) are
omitted; everything else is carried. -/
structure FailureCtx where
  failure_type : String
  failure_time : ℚ
  failure_pitch : Nat
  context_decisions : List DPDecision
  preceding_matches : List MatchEv
  score_progression : List ℚ
  timing_analysis : TimingAnalysis
  line_number : Nat
  comprehensive_context : Option CompContext := none
deriving DecidableEq, Inhabited

/-- Constant `FAILURE_CONTEXT_WINDOW` (src/debug/config.py line 44). -/
def failureContextWindow : Nat := 5

/-- Embeds `FailureAnalyzer._analyze_no_match_failure` (lines 252-288).  The final
`List String` component records the `logger` calls the function makes: the
source body contains none on any path — in particular the
insufficient-context branch (`if not context_decisions: return None`)
returns without logging anything.  The Python falsy check on the extracted
comprehensive context cannot fire (the context dict always carries its
eleven keys), so no error is raised there. -/
def analyzeNoMatchFailure (st : AnalyzerState) (nm : NoMatchEv) :
    Except String (Option FailureCtx × AnalyzerState × List String) :=
  let contextDecisions :=
    getContextBeforeTime st.dpDecisions nm.time failureContextWindow
  if contextDecisions.isEmpty then
    .ok (none, st, [])
  else
    let precedingMatches := getMatchesBeforeTime st.matchEvents nm.time 3
    let scoreProgression := contextDecisions.map fun d => d.final_value
    match analyzeTimingPatterns contextDecisions nm.time with
    | .error e => .error e
    | .ok ta =>
        let res := extractComprehensiveContext st nm.time nm.pitch
        .ok (some
          { failure_type := "no_match"
            failure_time := nm.time
            failure_pitch := nm.pitch
            context_decisions := contextDecisions
            preceding_matches := precedingMatches
            score_progression := scoreProgression
            timing_analysis := ta
            line_number := nm.line_number
            comprehensive_context := some res.1 }, res.2, [])

/-- Iteration of `_analyze_potential_wrong_matches` (lines 290-320) over
the match list: a match with negative score and non-empty preceding
context yields a `wrong_match` context; a timing-analysis exception
aborts the whole analysis. -/
def wrongMatchLoop (st : AnalyzerState) :
    List MatchEv → Except String (List FailureCtx)
  | [] => .ok []
  | m :: rest =>
      if m.score < 0 then
        let contextDecisions :=
          getContextBeforeTime st.dpDecisions m.time failureContextWindow
        if contextDecisions.isEmpty then wrongMatchLoop st rest
        else
          match analyzeTimingPatterns contextDecisions m.time with
          | .error e => .error e
          | .ok ta =>
              match wrongMatchLoop st rest with
              | .error e => .error e
              | .ok others => .ok (
                  { failure_type := "wrong_match"
                    failure_time := m.time
                    failure_pitch := m.pitch
                    context_decisions := contextDecisions
                    preceding_matches :=
                      getMatchesBeforeTime st.matchEvents m.time 3
                    score_progression :=
                      contextDecisions.map fun d => d.final_value
                    timing_analysis := ta
                    line_number := m.line_number } :: others)
      else wrongMatchLoop st rest

/-- Embeds `FailureAnalyzer._analyze_potential_wrong_matches` (lines 290-320). -/
def analyzePotentialWrongMatches (st : AnalyzerState) :
    Except String (List FailureCtx) :=
  wrongMatchLoop st st.matchEvents

/-- Row order used by `_analyze_score_drops` when sorting one column's
decisions (`decisions.sort(key=lambda d: d.row)`); Python's sort and
`List.insertionSort` are both stable. -/
def rowLE (a b : DPDecision) : Prop :=
  a.row ≤ b.row

instance : DecidableRel rowLE := fun a b => Nat.decLe a.row b.row

instance : IsTrans DPDecision rowLE := ⟨fun _ _ _ h1 h2 => le_trans h1 h2⟩

instance : IsTotal DPDecision rowLE := ⟨fun a b => le_total a.row b.row⟩

/-- Column keys in first-appearance order: the Python dict insertion order
of the `by_column` grouping (lines 327-333). -/
def columnsInOrder (dps : List DPDecision) : List Nat :=
  dps.foldl (fun acc d => if d.column ∈ acc then acc else acc ++ [d.column])
    []

/-- The `by_column` grouping: one bucket per column in dict order, each
preserving file order (appends). -/
def byColumn (dps : List DPDecision) : List (List DPDecision) :=
  (columnsInOrder dps).map fun c => dps.filter fun d => d.column = c

/-- Python slice `decisions[max(0, i - FAILURE_CONTEXT_WINDOW) : i + 1]`
(line 345); natural subtraction performs the `max(0, ...)` clamp. -/
def dropContextSlice (ds : List DPDecision) (i : Nat) : List DPDecision :=
  (ds.drop (i - failureContextWindow)).take
    (i + 1 - (i - failureContextWindow))

/-- Inner loop of `_analyze_score_drops` (lines 339-363) over the indices
`range(1, len(decisions))` of one row-sorted column: a drop of more than 2
between adjacent rows yields a `score_drop` context. -/
def scoreDropIdx (st : AnalyzerState) (ds : List DPDecision) :
    List Nat → Except String (List FailureCtx)
  | [] => .ok []
  | i :: rest =>
      let prevScore := (ds.getD (i - 1) default).final_value
      let currScore := (ds.getD i default).final_value
      if prevScore - currScore > 2 then
        let contextDecisions := dropContextSlice ds i
        match analyzeTimingPatterns contextDecisions
            (ds.getD i default).time with
        | .error e => .error e
        | .ok ta =>
            match scoreDropIdx st ds rest with
            | .error e => .error e
            | .ok others => .ok (
                { failure_type := "score_drop"
                  failure_time := (ds.getD i default).time
                  failure_pitch := (ds.getD i default).pitch
                  context_decisions := contextDecisions
                  preceding_matches := getMatchesBeforeTime st.matchEvents
                    (ds.getD i default).time 3
                  score_progression :=
                    contextDecisions.map fun d => d.final_value
                  timing_analysis := ta
                  line_number := (ds.getD i default).line_number } :: others)
      else scoreDropIdx st ds rest

/-- Outer loop of `_analyze_score_drops` over the column buckets. -/
def scoreDropColumns (st : AnalyzerState) :
    List (List DPDecision) → Except String (List FailureCtx)
  | [] => .ok []
  | ds :: rest =>
      let sorted := List.insertionSort rowLE ds
      match scoreDropIdx st sorted (List.range' 1 (sorted.length - 1)) with
      | .error e => .error e
      | .ok cs =>
          match scoreDropColumns st rest with
          | .error e => .error e
          | .ok others => .ok (cs ++ others)

/-- Embeds `FailureAnalyzer._analyze_score_drops` (lines 322-365). -/
def analyzeScoreDrops (st : AnalyzerState) : Except String (List FailureCtx) :=
  scoreDropColumns st (byColumn st.dpDecisions)

theorem dropContextSlice_length (ds : List DPDecision) (i : Nat)
    (h1 : 1 ≤ i) (h2 : i < ds.length) :
    2 ≤ (dropContextSlice ds i).length := by
  simp only [dropContextSlice, failureContextWindow, List.length_take,
    List.length_drop]
  omega

theorem analyzeTimingPatterns_isOk (decisions : List DPDecision)
    (t : ℚ) (h : 2 ≤ decisions.length) :
    ∃ ta, analyzeTimingPatterns decisions t = .ok ta := by
  unfold analyzeTimingPatterns
  rw [if_neg (by omega)]
  have hlen : (List.zipWith (fun a b => b - a) (decisions.map fun d => d.time)
      (decisions.map fun d => d.time).tail).length
      = decisions.length - 1 := by
    simp only [List.length_zipWith, List.length_tail, List.length_map]
    omega
  have hne : (List.zipWith (fun a b => b - a)
      (decisions.map fun d => d.time)
      (decisions.map fun d => d.time).tail).isEmpty = false := by
    cases hi : List.zipWith (fun a b => b - a)
        (decisions.map fun d => d.time)
        (decisions.map fun d => d.time).tail with
    | nil => rw [hi] at hlen; simp at hlen; omega
    | cons a l => rfl
  have hne2 : (decisions.map fun d => d.time).isEmpty = false := by
    cases hd : decisions with
    | nil => rw [hd] at h; simp at h
    | cons a l => rfl
  simp only [hne, hne2, Bool.false_eq_true, if_false]
  exact ⟨_, rfl⟩

theorem scoreDropIdx_spec (st : AnalyzerState) (ds : List DPDecision) :
    ∀ idxs : List Nat, (∀ i ∈ idxs, 1 ≤ i ∧ i < ds.length) →
    ∃ cs, scoreDropIdx st ds idxs = .ok cs ∧
      cs.map (fun c => (c.failure_time, c.line_number))
        = (idxs.filter fun i =>
            decide ((ds.getD (i - 1) default).final_value
              - (ds.getD i default).final_value > 2)).map
          fun i => ((ds.getD i default).time,
            (ds.getD i default).line_number) := by
  intro idxs
  induction idxs with
  | nil => intro _; exact ⟨[], rfl, rfl⟩
  | cons i rest ih =>
    intro hmem
    obtain ⟨h1, h2⟩ := hmem i (List.mem_cons_self i rest)
    obtain ⟨cs, hcs, hmap⟩ := ih fun j hj => hmem j (List.mem_cons_of_mem i hj)
    by_cases hcond : (ds.getD (i - 1) default).final_value
        - (ds.getD i default).final_value > 2
    · obtain ⟨ta, hta⟩ := analyzeTimingPatterns_isOk (dropContextSlice ds i)
        (ds.getD i default).time (dropContextSlice_length ds i h1 h2)
      have hdec : decide ((ds.getD (i - 1) default).final_value
          - (ds.getD i default).final_value > 2) = true := decide_eq_true hcond
      rw [scoreDropIdx]
      simp only [if_pos hcond, hta, hcs]
      refine ⟨_, rfl, ?_⟩
      simp only [List.filter_cons, hdec, if_true, List.map_cons]
      rw [hmap]
    · have hdec : decide ((ds.getD (i - 1) default).final_value
          - (ds.getD i default).final_value > 2) = false :=
        decide_eq_false hcond
      refine ⟨cs, ?_, ?_⟩
      · rw [scoreDropIdx]
        simp only [if_neg hcond, hcs]
      · simp only [List.filter_cons, hdec, Bool.false_eq_true, if_false]
        exact hmap

theorem scoreDropColumns_spec (st : AnalyzerState) :
    ∀ buckets : List (List DPDecision),
    ∃ cs, scoreDropColumns st buckets = .ok cs ∧
      cs.map (fun c => (c.failure_time, c.line_number))
        = buckets.flatMap fun ds0 =>
            let ds := List.insertionSort rowLE ds0
            ((List.range' 1 (ds.length - 1)).filter fun i =>
                decide ((ds.getD (i - 1) default).final_value
                  - (ds.getD i default).final_value > 2)).map
              fun i => ((ds.getD i default).time,
                (ds.getD i default).line_number) := by
  intro buckets
  induction buckets with
  | nil => exact ⟨[], rfl, rfl⟩
  | cons ds0 rest ih =>
    obtain ⟨cs, hcs, hmap⟩ := ih
    have hidx : ∀ i ∈ List.range' 1
        ((List.insertionSort rowLE ds0).length - 1),
        1 ≤ i ∧ i < (List.insertionSort rowLE ds0).length := by
      intro i hi
      rw [List.mem_range'_1] at hi
      omega
    obtain ⟨cs1, hcs1, hmap1⟩ := scoreDropIdx_spec st
      (List.insertionSort rowLE ds0)
      (List.range' 1 ((List.insertionSort rowLE ds0).length - 1)) hidx
    refine ⟨cs1 ++ cs, ?_, ?_⟩
    · rw [scoreDropColumns]
      simp only [hcs1, hcs]
    · simp only [List.map_append, List.flatMap_cons, hmap1, hmap]

/-- The declarative statement of which cells are flagged, written from the
spec: within each column bucket, row-sorted, every adjacent index whose
drop in final value exceeds 2 — identified by (time, line number). -/
def scoreRegressionSpec (dps : List DPDecision) : List (ℚ × Nat) :=
  (byColumn dps).flatMap fun ds0 =>
    let ds := List.insertionSort rowLE ds0
    ((List.range' 1 (ds.length - 1)).filter fun i =>
        decide ((ds.getD (i - 1) default).final_value
          - (ds.getD i default).final_value > 2)).map
      fun i => ((ds.getD i default).time, (ds.getD i default).line_number)

/-- Scenario C input: column 3 with row-sorted final values
`[5.0, 5.0, 2.5]` on lines 11, 12, 13. -/
def stScenarioC : AnalyzerState :=
  { dpDecisions :=
      [⟨3, 1, 60, 1, 0, 5, 5, true, [], 0, 11⟩,
       ⟨3, 2, 62, 2, 0, 5, 5, true, [], 0, 12⟩,
       ⟨3, 3, 64, 3, 0, 5/2, 5/2, false, [], 0, 13⟩]
    matchEvents := []
    noMatches := []
    lineToTime := []
    timingChecksByTime := []
    cellDecisionsWithTime := []
    scoreCompetitionsWithTime := []
    matchTypeAnalyses := []
    horizontalRules := []
    verticalRules := []
    matrixStates := []
    arrayNeighborhoods := []
    windowMovements := []
    ornamentProcessings := []
    timeWindowCache := [] }

/-- C6: the score-drop detector never errors, flags a `ScoreRegression`
within a column's row-sorted sequence exactly at the adjacent indices whose
drop in final value exceeds the threshold 2, and on Scenario C
(`[5.0, 5.0, 2.5]`) flags exactly one regression, at the third row. -/
theorem score_regression_flags_iff :
    (∀ st : AnalyzerState, ∃ cs, analyzeScoreDrops st = .ok cs ∧
      cs.map (fun c => (c.failure_time, c.line_number))
        = scoreRegressionSpec st.dpDecisions)
    ∧ (analyzeScoreDrops stScenarioC).toOption.map
        (List.map fun c => (c.failure_type, c.line_number))
      = some [("score_drop", 13)] := by
  constructor
  · intro st
    obtain ⟨cs, hcs, hmap⟩ := scoreDropColumns_spec st (byColumn st.dpDecisions)
    exact ⟨cs, hcs, hmap⟩
  · norm_num [analyzeScoreDrops, stScenarioC, byColumn, columnsInOrder,
      scoreDropColumns, scoreDropIdx, List.insertionSort, List.orderedInsert,
      rowLE, dropContextSlice, failureContextWindow, analyzeTimingPatterns,
      pyMaxQ, pyMinQ, getMatchesBeforeTime, pyLastN, List.range',
      Except.toOption]

theorem insertionSort_nil_decKey :
    List.insertionSort decKeyLE [] = [] := rfl

/-- C7 (amended): a no-match outcome with no decision at or before its time
yields no `FailureContext` — the outcome is dropped, the analysis does not
fail, and (the amendment) nothing is logged: the drop is silent. -/
theorem no_match_without_context_dropped (st : AnalyzerState)
    (nm : NoMatchEv) (h : ∀ d ∈ st.dpDecisions, ¬ d.time ≤ nm.time) :
    analyzeNoMatchFailure st nm = .ok (none, st, []) := by
  have hfilter :
      st.dpDecisions.filter (fun d => decide (d.time ≤ nm.time)) = [] := by
    rw [List.filter_eq_nil_iff]
    intro d hd
    simpa using h d hd
  unfold analyzeNoMatchFailure getContextBeforeTime
  rw [hfilter, insertionSort_nil_decKey]
  simp [pyLastN]

/-- Decision whose time (3.0) lies after the failing input below. -/
def dLate : DPDecision :=
  ⟨1, 1, 60, 3, 0, 2, 2, true, [], 0, 7⟩

/-- Analyzer state whose only decision comes after the no-match below. -/
def stInsufficient : AnalyzerState :=
  { dpDecisions := [dLate]
    matchEvents := []
    noMatches := [⟨60, 3/2, 9⟩]
    lineToTime := []
    timingChecksByTime := []
    cellDecisionsWithTime := []
    scoreCompetitionsWithTime := []
    matchTypeAnalyses := []
    horizontalRules := []
    verticalRules := []
    matrixStates := []
    arrayNeighborhoods := []
    windowMovements := []
    ornamentProcessings := []
    timeWindowCache := [] }

/-- The no-match at 1.5s, before any decision. -/
def nmEarly : NoMatchEv :=
  ⟨60, 3/2, 9⟩

/-- C7 counterexample to the claim as stated: on a concrete no-match with
no preceding decision the analysis returns no `FailureContext` and no
error, but its logger-call trace (third component) is empty — no
"insufficient context" reason is logged anywhere. -/
theorem no_match_drop_logs_nothing :
    analyzeNoMatchFailure stInsufficient nmEarly
      = .ok (none, stInsufficient, ([] : List String)) := by
  norm_num [analyzeNoMatchFailure, getContextBeforeTime, stInsufficient,
    nmEarly, dLate, pyLastN, failureContextWindow, List.insertionSort]

/-- Witness for the amended C7 theorem at the concrete input. -/
theorem no_match_without_context_dropped_witness :
    (∀ d ∈ stInsufficient.dpDecisions, ¬ d.time ≤ nmEarly.time)
    ∧ analyzeNoMatchFailure stInsufficient nmEarly
      = .ok (none, stInsufficient, []) := by
  have h : ∀ d ∈ stInsufficient.dpDecisions, ¬ d.time ≤ nmEarly.time := by
    intro d hd
    rw [show stInsufficient.dpDecisions = [dLate] from rfl,
      List.mem_singleton] at hd
    subst hd
    norm_num [dLate, nmEarly]
  exact ⟨h, no_match_without_context_dropped stInsufficient nmEarly h⟩

/-! ## The match-found grammar and the low-confidence-match detector

Embeds `LOG_PATTERNS['match_found']` (src/debug/src/config.py line 46) as a
character-level matcher.  The regex is a sequence of literals and
one-or-more character classes; greedy maximal munch is exactly the regex
semantics here because no class contains the delimiter that follows its
group and the last group ends the pattern (`re.match` allows trailing
text). -/

/-- Character class `[0-9]` of the `row` and `pitch` groups. -/
def isDigitCh (c : Char) : Bool :=
  c.isDigit

/-- Character class of the `perf_time` and `score` groups: digits and dot,
with no sign allowed. -/
def isNumDotCh (c : Char) : Bool :=
  c.isDigit || c = '.'

/-- Matches a literal run of the pattern against the input head. -/
def stripLit : List Char → List Char → Option (List Char)
  | [], rest => some rest
  | _ :: _, [] => none
  | p :: ps, c :: cs => if c = p then stripLit ps cs else none

/-- Longest prefix satisfying the class, with the remainder. -/
def chompWhile (p : Char → Bool) : List Char → List Char × List Char
  | [] => ([], [])
  | c :: cs =>
      if p c then
        let r := chompWhile p cs
        (c :: r.1, r.2)
      else ([], c :: cs)

/-- A one-or-more character-class group (maximal munch). -/
def chompClass1 (p : Char → Bool) (s : List Char) :
    Option (List Char × List Char) :=
  let r := chompWhile p s
  if r.1.isEmpty then none else some (r.1, r.2)

/-- Anchored match (with capture groups) of the `match_found` pattern
`MATCH\|row:(\d+)\|pitch:(\d+)\|perf_time:([\d.]+)\|score:([\d.]+)`. -/
def matchFoundCapture (line : String) :
    Option (String × String × String × String) := do
  let r0 ← stripLit "MATCH|row:".toList line.toList
  let (g1, r1) ← chompClass1 isDigitCh r0
  let r2 ← stripLit "|pitch:".toList r1
  let (g2, r3) ← chompClass1 isDigitCh r2
  let r4 ← stripLit "|perf_time:".toList r3
  let (g3, r5) ← chompClass1 isNumDotCh r4
  let r6 ← stripLit "|score:".toList r5
  let (g4, _) ← chompClass1 isNumDotCh r6
  pure (String.mk g1, String.mk g2, String.mk g3, String.mk g4)

/-- Two decisions preceding the negative-score match below. -/
def stNegScore : AnalyzerState :=
  { dpDecisions :=
      [⟨1, 1, 60, 1, 0, 2, 2, true, [], 0, 2⟩,
       ⟨1, 2, 60, 5/4, 0, 2, 2, true, [], 0, 3⟩]
    matchEvents := [⟨5, 60, 3/2, -1, 4⟩]
    noMatches := []
    lineToTime := []
    timingChecksByTime := []
    cellDecisionsWithTime := []
    scoreCompetitionsWithTime := []
    matchTypeAnalyses := []
    horizontalRules := []
    verticalRules := []
    matrixStates := []
    arrayNeighborhoods := []
    windowMovements := []
    ornamentProcessings := []
    timeWindowCache := [] }

/-- C1: the detector branch does classify an in-memory match of score -1.0
as a `wrong_match` (LowConfidenceMatch) when preceding decisions exist —
but the declared `match_found` grammar rejects the very log line carrying
`score:-1.0` (its score class has no sign), while accepting the same line
with a non-negative score.  A log containing a negative-score match outcome
therefore never produces that match event, and the claimed classification
cannot happen for any input log. -/
theorem negative_score_line_unrecognized :
    matchFoundCapture "MATCH|row:5|pitch:60|perf_time:1.500|score:-1.0"
      = none
    ∧ matchFoundCapture "MATCH|row:5|pitch:60|perf_time:1.500|score:2.0"
      = some ("5", "60", "1.500", "2.0")
    ∧ (analyzePotentialWrongMatches stNegScore).toOption.map
        (List.map fun c => c.failure_type) = some ["wrong_match"] := by
  refine ⟨by decide, by decide, ?_⟩
  norm_num [analyzePotentialWrongMatches, wrongMatchLoop, stNegScore,
    getContextBeforeTime, getMatchesBeforeTime, pyLastN,
    failureContextWindow, List.insertionSort, List.orderedInsert, decKeyLE,
    matchTimeLE, analyzeTimingPatterns, pyMaxQ, pyMinQ, Except.toOption]

/-! ## Two-pass scan controller

Embeds the targeted branch of `parse_log_file`
(src/debug/log_parser.py lines 606-645): the first pass yields the
no-match events; a window of plus/minus K lines is collected around each
no-match line number into a set; with an empty set the controller raises
before constructing the comprehensive second-pass parser; otherwise the
second pass runs on exactly that line set (abstracted here as a function
of the line set, since the claim concerns only whether and on what window
it runs). -/

/-- Set-insert into an insertion-ordered list (Python `set.add`
membership semantics). -/
def setInsert (acc : List Int) (n : Int) : List Int :=
  if n ∈ acc then acc else acc ++ [n]

/-- The offsets `range(-K, K + 1)` applied to one no-match line number. -/
def windowOffsets (nm : NoMatchEv) (k : Nat) : List Int :=
  (List.range (2 * k + 1)).map fun (off : Nat) =>
    (nm.line_number : Int) + (off : Int) - (k : Int)

/-- Computes `failure_lines` (lines 615-627): the union of the per-failure
windows. -/
def buildFailureLines (noMatches : List NoMatchEv) (k : Nat) : List Int :=
  noMatches.foldl (fun acc nm => (windowOffsets nm k).foldl setInsert acc) []

/-- Targeted `parse_log_file` branch (lines 629-645). -/
def parseLogFileTargeted {C : Type} (noMatches : List NoMatchEv) (k : Nat)
    (secondPass : List Int → C) : Except String C :=
  let failureLines := buildFailureLines noMatches k
  if failureLines.isEmpty then
    .error
      "No failure lines found - cannot perform targeted parsing without failures"
  else
    .ok (secondPass failureLines)

theorem setInsert_fold_mem (xs : List Int) :
    ∀ acc n, n ∈ xs.foldl setInsert acc → n ∈ acc ∨ n ∈ xs := by
  induction xs with
  | nil => intro acc n h; exact Or.inl h
  | cons x rest ih =>
    intro acc n h
    rcases ih (setInsert acc x) n h with h1 | h1
    · unfold setInsert at h1
      by_cases hx : x ∈ acc
      · rw [if_pos hx] at h1
        exact Or.inl h1
      · rw [if_neg hx] at h1
        rcases List.mem_append.mp h1 with h2 | h2
        · exact Or.inl h2
        · right
          simp only [List.mem_singleton] at h2
          simp [h2]
    · exact Or.inr (List.mem_cons_of_mem x h1)

theorem buildFailureLines_mem (k : Nat) :
    ∀ (nms : List NoMatchEv) acc n,
    n ∈ nms.foldl (fun acc nm => (windowOffsets nm k).foldl setInsert acc)
        acc →
    n ∈ acc ∨ ∃ nm ∈ nms, (nm.line_number : Int) - k ≤ n
      ∧ n ≤ (nm.line_number : Int) + k := by
  intro nms
  induction nms with
  | nil => intro acc n h; exact Or.inl h
  | cons nm rest ih =>
    intro acc n h
    rcases ih _ n h with h1 | ⟨nm', hnm', hb⟩
    · rcases setInsert_fold_mem _ _ _ h1 with h2 | h2
      · exact Or.inl h2
      · right
        refine ⟨nm, List.mem_cons_self nm rest, ?_⟩
        unfold windowOffsets at h2
        obtain ⟨off, hoff, hn⟩ := List.mem_map.mp h2
        rw [List.mem_range] at hoff
        subst hn
        omega
    · exact Or.inr ⟨nm', List.mem_cons_of_mem nm hnm', hb⟩

/-- C4: when the first pass finds zero no-match failures the controller
raises an explicit error before any second-pass detail scan and fabricates
no line window; in general every line in the window set lies within K
lines of a genuine no-match. -/
theorem zero_failures_no_fabricated_window {C : Type}
    (secondPass : List Int → C) (noMatches : List NoMatchEv) (k : Nat)
    (h : noMatches = []) :
    buildFailureLines noMatches k = []
    ∧ parseLogFileTargeted noMatches k secondPass
      = .error
        "No failure lines found - cannot perform targeted parsing without failures"
    ∧ ∀ (nms : List NoMatchEv) (n : Int), n ∈ buildFailureLines nms k →
        ∃ nm ∈ nms, (nm.line_number : Int) - k ≤ n
          ∧ n ≤ (nm.line_number : Int) + k := by
  subst h
  refine ⟨rfl, rfl, ?_⟩
  intro nms n hn
  rcases buildFailureLines_mem k nms [] n hn with h1 | h1
  · simp at h1
  · exact h1

/-- Witness for C4 on the empty first-pass result with K = 50. -/
theorem zero_failures_no_fabricated_window_witness :
    (([] : List NoMatchEv) = [])
    ∧ buildFailureLines [] 50 = []
    ∧ parseLogFileTargeted [] 50 (fun lines => lines.length)
      = .error
        "No failure lines found - cannot perform targeted parsing without failures"
    ∧ ∀ (nms : List NoMatchEv) (n : Int), n ∈ buildFailureLines nms 50 →
        ∃ nm ∈ nms, (nm.line_number : Int) - 50 ≤ n
          ∧ n ≤ (nm.line_number : Int) + 50 :=
  ⟨rfl, (zero_failures_no_fabricated_window (fun lines => lines.length)
      [] 50 rfl).1,
    (zero_failures_no_fabricated_window (fun lines => lines.length)
      [] 50 rfl).2.1,
    (zero_failures_no_fabricated_window (fun lines => lines.length)
      [] 50 rfl).2.2⟩

/-! ## Stream reassembler (log flattener)

Embeds `LogFlattener._process_input_logs` (src/debug/src/log_flattener.py
lines 274-363).  The `FlattenedLogEntry` dataclass is modelled as an
association map from its field names to typed values, with `setattr`
guarded by `hasattr` rendered as update-if-present; the Python dicts
(`input_data`, `dp_entries`, per-row slot maps) are insertion-ordered
association lists with dict update semantics. -/

/-- A typed field value of `FlattenedLogEntry`. -/
inductive FieldVal where
  | i (n : Int)
  | q (x : ℚ)
  | s (v : String)
  | b (v : Bool)
deriving DecidableEq

/-- A Python dict of typed fields, insertion-ordered. -/
abbrev FieldMap := List (String × FieldVal)

/-- Update a field in place if its key is present; a missing key is a
no-op — exactly the `if hasattr(entry, field): setattr(...)` guard, since
an entry's key set is fixed at the dataclass defaults. -/
def setField : FieldMap → String → FieldVal → FieldMap
  | [], _, _ => []
  | (k, v0) :: rest, k', v =>
      if k = k' then (k, v) :: rest else (k, v0) :: setField rest k' v

/-- Apply every (ordered) field of a parsed-event dict onto an entry. -/
def applyData (e : FieldMap) (data : FieldMap) : FieldMap :=
  data.foldl (fun acc kv => setField acc kv.1 kv.2) e

/-- Field lookup on an entry or event dict. -/
def getField : FieldMap → String → Option FieldVal
  | [], _ => none
  | (k, v) :: rest, k' => if k = k' then some v else getField rest k'

/-- The `FlattenedLogEntry` defaults (log_flattener.py lines 44-179), in
declaration order: ints and floats default to zero, strings to empty,
flags to false, and the two cell-time fields to -1.0.  Split into the
dataclass's six sections to keep elaboration cheap. -/
def entryDefault1 : FieldMap :=
  [("input_column", .i 0), ("input_pitch", .i 0), ("input_perf_time", .q 0),
   ("match_row", .i 0), ("match_pitch", .i 0), ("match_perf_time", .q 0),
   ("match_score", .q 0),
   ("no_match_pitch", .i 0), ("no_match_perf_time", .q 0),
   ("result_type", .s ""),
   ("match_explanation", .s ""), ("no_match_explanation", .s ""),
   ("decision_explanation", .s ""), ("timing_explanation", .s ""),
   ("ornament_explanation", .s "")]

def entryDefault2 : FieldMap :=
  [("matrix_window_start", .i 0), ("matrix_window_end", .i 0),
   ("matrix_window_center", .i 0), ("matrix_current_base", .i 0),
   ("matrix_prev_base", .i 0), ("matrix_current_upper", .i 0),
   ("matrix_prev_upper", .i 0),
   ("cevent_row", .i 0), ("cevent_score_time", .q 0),
   ("cevent_pitch_count", .i 0), ("cevent_time_span", .q 0),
   ("cevent_ornament_count", .i 0), ("cevent_expected", .i 0),
   ("cevent_pitches_str", .s ""),
   ("cell_time", .q (-1)), ("cell_value", .q 0),
   ("cell_used_pitches", .s ""), ("cell_unused_count", .i 0),
   ("cell_score_time", .q 0)]

def entryDefault3 : FieldMap :=
  [("vrule_up_value", .q 0), ("vrule_penalty", .q 0),
   ("vrule_result", .q 0), ("vrule_start_point", .s ""),
   ("timing_prev_cell_time", .q (-1)), ("timing_curr_perf_time", .q 0),
   ("timing_ioi", .q 0), ("timing_span", .q 0), ("timing_limit", .q 0),
   ("timing_pass", .s ""), ("timing_constraint_type", .s ""),
   ("hrule_prev_value", .q 0), ("hrule_ioi", .q 0), ("hrule_limit", .q 0),
   ("hrule_timing_pass", .s ""), ("hrule_match_type", .s ""),
   ("hrule_result", .q 0)]

def entryDefault4 : FieldMap :=
  [("decision_vertical_result", .q 0), ("decision_horizontal_result", .q 0),
   ("decision_winner", .s ""), ("decision_updated", .s ""),
   ("decision_final_value", .q 0), ("decision_reason", .s ""),
   ("matchtype_is_chord", .s ""), ("matchtype_is_trill", .s ""),
   ("matchtype_is_grace", .s ""), ("matchtype_is_extra", .s ""),
   ("matchtype_is_ignored", .s ""), ("matchtype_already_used", .s ""),
   ("matchtype_timing_ok", .s ""), ("matchtype_ornament_info", .s "")]

def entryDefault5 : FieldMap :=
  [("ornament_type", .s ""), ("ornament_trill_pitches", .s ""),
   ("ornament_grace_pitches", .s ""), ("ornament_ignore_pitches", .s ""),
   ("ornament_credit_applied", .q 0),
   ("ornament_trill_pitches_str", .s ""),
   ("ornament_grace_pitches_str", .s ""),
   ("ornament_ignore_pitches_str", .s ""),
   ("dp_row", .i 0), ("dp_vertical_rule", .q 0),
   ("dp_horizontal_rule", .q 0), ("dp_final_value", .q 0),
   ("dp_match", .i 0), ("dp_used_pitches", .s ""),
   ("dp_unused_count", .i 0)]

def entryDefault6 : FieldMap :=
  [("score_current_score", .q 0), ("score_top_score", .q 0),
   ("score_beats_top", .s ""), ("score_margin", .q 0),
   ("score_confidence", .q 0),
   ("array_center_value", .q 0), ("array_neighbor_values", .s ""),
   ("array_neighbor_positions", .s ""),
   ("bug_has_timing_bug", .b false), ("bug_description", .s "")]

def entryDefault : FieldMap :=
  entryDefault1 ++ entryDefault2 ++ entryDefault3 ++ entryDefault4
    ++ entryDefault5 ++ entryDefault6

/-- A parsed line as consumed by `_process_input_logs`: the dispatch
categories of lines 293-315.  `rowDetail` covers the detail kinds whose
extracted dict carries `row`; `blockDetail` covers those without `row`
(stored into `input_data` and applied to every record of the block). -/
inductive PLine where
  | inputEvent (data : FieldMap)
  | dpEntry (row : Nat) (data : FieldMap)
  | rowDetail (kind : String) (row : Nat) (data : FieldMap)
  | blockDetail (kind : String) (data : FieldMap)
  | matchFound (data : FieldMap)
  | noMatch (data : FieldMap)
  | unrecognized
deriving DecidableEq

/-- One `input_data` value: a scalar field of the input event, or a
whole detail dict stored under its log type. -/
inductive InputVal where
  | scalar (v : FieldVal)
  | group (m : FieldMap)
deriving DecidableEq

abbrev InputMap := List (String × InputVal)

/-- Dict update-or-append (`input_data[log_type] = data`). -/
def imSet : InputMap → String → InputVal → InputMap
  | [], k, v => [(k, v)]
  | (k0, v0) :: rest, k, v =>
      if k0 = k then (k0, v) :: rest else (k0, v0) :: imSet rest k v

/-- The per-row slot map `dp_entries[row]`: slot `"dp"` for the primary
entry and one slot per detail log type. -/
abbrev SlotMap := List (String × FieldMap)

/-- Dict update-or-append on a slot map. -/
def slotSet : SlotMap → String → FieldMap → SlotMap
  | [], k, d => [(k, d)]
  | (k0, d0) :: rest, k, d =>
      if k0 = k then (k0, d) :: rest else (k0, d0) :: slotSet rest k d

/-- Slot lookup (`'dp' in row_data`, `row_data['dp']`). -/
def slotGet : SlotMap → String → Option FieldMap
  | [], _ => none
  | (k0, d0) :: rest, k => if k0 = k then some d0 else slotGet rest k

abbrev RowMap := List (Nat × SlotMap)

/-- Renders `dp_entries.setdefault(row, dict())[slot] = data`: update the row in
place, or append a fresh row at the end of the dict. -/
def rowUpdate : RowMap → Nat → String → FieldMap → RowMap
  | [], row, k, d => [(row, slotSet [] k d)]
  | (row0, s) :: rest, row, k, d =>
      if row0 = row then (row0, slotSet s k d) :: rest
      else (row0, s) :: rowUpdate rest row k d

/-- The local state of `_process_input_logs` after its first loop. -/
structure BlockState where
  inputData : InputMap
  dpEntries : RowMap
  resultData : Option (Bool × FieldMap)
deriving DecidableEq

/-- One step of the parse loop of `_process_input_logs`
(lines 286-315). -/
def collectLine (st : BlockState) : PLine → BlockState
  | .inputEvent data =>
      { st with inputData := data.map fun kv => (kv.1, InputVal.scalar kv.2) }
  | .dpEntry row data =>
      { st with dpEntries := rowUpdate st.dpEntries row "dp" data }
  | .rowDetail kind row data =>
      { st with dpEntries := rowUpdate st.dpEntries row kind data }
  | .blockDetail kind data =>
      { st with inputData := imSet st.inputData kind (InputVal.group data) }
  | .matchFound data => { st with resultData := some (true, data) }
  | .noMatch data => { st with resultData := some (false, data) }
  | .unrecognized => st

def collectBlock (lines : List PLine) : BlockState :=
  lines.foldl collectLine ⟨[], [], none⟩

/-- Application of `input_data` onto a fresh entry (lines 324-333):
scalars set their field, detail dicts set all their fields, in dict
order. -/
def applyInput (e : FieldMap) : InputMap → FieldMap
  | [] => e
  | (k, InputVal.scalar v) :: rest => applyInput (setField e k v) rest
  | (_, InputVal.group m) :: rest => applyInput (applyData e m) rest

/-- Application of the primary dp dict when present (lines 335-338). -/
def applyDp : Option FieldMap → FieldMap → FieldMap
  | some d, e => applyData e d
  | none, e => e

/-- Application of the block outcome with its `result_type` tag
(lines 347-358). -/
def applyResult : Option (Bool × FieldMap) → FieldMap → FieldMap
  | some (true, d), e => applyData (setField e "result_type" (.s "match")) d
  | some (false, d), e =>
      applyData (setField e "result_type" (.s "no_match")) d
  | none, e => e

/-- Building one record (lines 318-360): defaults, then input data, then
the primary dp dict, then every other slot in dict order, then the block
outcome. -/
def buildEntry (inputData : InputMap) (result : Option (Bool × FieldMap))
    (slots : SlotMap) : FieldMap :=
  applyResult result
    (slots.foldl
      (fun acc kv => if kv.1 = "dp" then acc else applyData acc kv.2)
      (applyDp (slotGet slots "dp") (applyInput entryDefault inputData)))

/-- Embeds `LogFlattener._process_input_logs` over one block's parsed lines:
one record per row holding a primary dp dict (`if 'dp' not in row_data:
continue`), in dict order. -/
def processInputLogs (lines : List PLine) : List FieldMap :=
  ((collectBlock lines).dpEntries.filter fun rs =>
      (slotGet rs.2 "dp").isSome).map
    fun rs => buildEntry (collectBlock lines).inputData
      (collectBlock lines).resultData rs.2

theorem rowUpdate_keys (row : Nat) (k : String) (d : FieldMap) :
    ∀ r : RowMap, (rowUpdate r row k d).map Prod.fst =
      if row ∈ r.map Prod.fst then r.map Prod.fst
      else r.map Prod.fst ++ [row] := by
  intro r
  induction r with
  | nil => simp [rowUpdate]
  | cons p rest ih =>
    obtain ⟨row0, s0⟩ := p
    by_cases h : row0 = row
    · subst h
      simp [rowUpdate]
    · simp only [rowUpdate, if_neg h, List.map_cons]
      rw [ih]
      by_cases hmem : row ∈ rest.map Prod.fst
      · rw [if_pos hmem, if_pos (by simp [hmem])]
      · rw [if_neg hmem, if_neg (by simp [hmem, Ne.symm h])]
        simp

theorem collectLine_nodup (st : BlockState)
    (h : (st.dpEntries.map Prod.fst).Nodup) (l : PLine) :
    (((collectLine st l).dpEntries).map Prod.fst).Nodup := by
  have hupd : ∀ row k d, ((rowUpdate st.dpEntries row k d).map
      Prod.fst).Nodup := by
    intro row k d
    rw [rowUpdate_keys]
    by_cases hmem : row ∈ st.dpEntries.map Prod.fst
    · rwa [if_pos hmem]
    · rw [if_neg hmem]
      simp [List.nodup_append, h, hmem]
  cases l with
  | inputEvent data => exact h
  | dpEntry row data => exact hupd row "dp" data
  | rowDetail kind row data => exact hupd row kind data
  | blockDetail kind data => exact h
  | matchFound data => exact h
  | noMatch data => exact h
  | unrecognized => exact h

theorem collectBlock_nodup (lines : List PLine) :
    (((collectBlock lines).dpEntries).map Prod.fst).Nodup := by
  suffices h : ∀ st : BlockState, (st.dpEntries.map Prod.fst).Nodup →
      ((lines.foldl collectLine st).dpEntries.map Prod.fst).Nodup from
    h ⟨[], [], none⟩ (by simp)
  induction lines with
  | nil => intro st h; exact h
  | cons l rest ih => intro st h; exact ih _ (collectLine_nodup st h l)

/-- C9: within one input block the reassembly dict's row keys are
duplicate-free, the flattened records are exactly those rows holding a
primary dp dict (rows with only detail events emit nothing), and hence the
emitted records carry pairwise distinct row keys. -/
theorem flattened_records_unique_per_row (lines : List PLine) :
    (((collectBlock lines).dpEntries).map Prod.fst).Nodup
    ∧ processInputLogs lines
      = (((collectBlock lines).dpEntries).filter fun rs =>
          (slotGet rs.2 "dp").isSome).map
        (fun rs => buildEntry (collectBlock lines).inputData
          (collectBlock lines).resultData rs.2)
    ∧ ((((collectBlock lines).dpEntries).filter fun rs =>
        (slotGet rs.2 "dp").isSome).map Prod.fst).Nodup := by
  refine ⟨collectBlock_nodup lines, rfl, ?_⟩
  have hsub : ((((collectBlock lines).dpEntries).filter fun rs =>
      (slotGet rs.2 "dp").isSome).map Prod.fst).Sublist
      (((collectBlock lines).dpEntries).map Prod.fst) :=
    (List.filter_sublist _).map Prod.fst
  exact (collectBlock_nodup lines).sublist hsub

/-! ### Order insensitivity of detail reassembly

The reassembly state after swapping a detail line with its owning primary
dp line is not syntactically identical (slot-dict insertion order flips),
but it is equivalent for record building: the dp slot lookup and the
ordered non-dp slots agree.  The equivalence is preserved by the rest of
the block and makes `processInputLogs` agree. -/

/-- The non-dp slots, in order. -/
def filterNd (s : SlotMap) : SlotMap :=
  s.filter fun kv => !(kv.1 == "dp")

/-- What record building reads from a slot map: the dp dict and the
ordered non-dp slots. -/
def SlotEquiv (s1 s2 : SlotMap) : Prop :=
  slotGet s1 "dp" = slotGet s2 "dp" ∧ filterNd s1 = filterNd s2

theorem slotEquiv_refl (s : SlotMap) : SlotEquiv s s :=
  ⟨rfl, rfl⟩

theorem slotGet_slotSet_self (s : SlotMap) (k : String) (d : FieldMap) :
    slotGet (slotSet s k d) k = some d := by
  induction s with
  | nil => simp [slotSet, slotGet]
  | cons p rest ih =>
    obtain ⟨k0, d0⟩ := p
    by_cases h : k0 = k
    · simp [slotSet, slotGet, h]
    · simp only [slotSet, if_neg h, slotGet, if_neg h]
      exact ih

theorem slotGet_slotSet_ne (s : SlotMap) (k k' : String) (d : FieldMap)
    (h : k' ≠ k) : slotGet (slotSet s k d) k' = slotGet s k' := by
  induction s with
  | nil => simp [slotSet, slotGet, Ne.symm h]
  | cons p rest ih =>
    obtain ⟨k0, d0⟩ := p
    by_cases h0 : k0 = k
    · subst h0
      simp [slotSet, slotGet, Ne.symm h]
    · simp only [slotSet, if_neg h0, slotGet]
      by_cases h1 : k0 = k'
      · rw [if_pos h1, if_pos h1]
      · rw [if_neg h1, if_neg h1]
        exact ih

theorem filterNd_slotSet_dp (s : SlotMap) (d : FieldMap) :
    filterNd (slotSet s "dp" d) = filterNd s := by
  induction s with
  | nil => simp [slotSet, filterNd]
  | cons p rest ih =>
    obtain ⟨k0, d0⟩ := p
    by_cases h : k0 = "dp"
    · subst h
      simp [slotSet, filterNd]
    · simp only [slotSet, if_neg h, filterNd, List.filter_cons]
      simp only [filterNd] at ih
      simp [h, ih]

theorem filterNd_slotSet_ne (s : SlotMap) (k : String) (d : FieldMap)
    (h : k ≠ "dp") :
    filterNd (slotSet s k d) = slotSet (filterNd s) k d := by
  induction s with
  | nil => simp [slotSet, filterNd, h]
  | cons p rest ih =>
    obtain ⟨k0, d0⟩ := p
    by_cases h0 : k0 = k
    · subst h0
      simp [slotSet, filterNd, List.filter_cons, h]
    · simp only [slotSet, if_neg h0, filterNd, List.filter_cons]
      by_cases h1 : k0 = "dp"
      · simp only [filterNd] at ih
        simp [h1, ih]
      · have hb : (k0 == "dp") = false := beq_eq_false_iff_ne.mpr h1
        simp only [filterNd] at ih
        simp only [hb, Bool.not_false, if_true]
        simp only [ih]
        simp [slotSet, h0]

theorem slotEquiv_slotSet {s1 s2 : SlotMap} (h : SlotEquiv s1 s2)
    (k : String) (d : FieldMap) :
    SlotEquiv (slotSet s1 k d) (slotSet s2 k d) := by
  obtain ⟨hdp, hnd⟩ := h
  by_cases hk : k = "dp"
  · subst hk
    exact ⟨by rw [slotGet_slotSet_self, slotGet_slotSet_self],
      by rw [filterNd_slotSet_dp, filterNd_slotSet_dp, hnd]⟩
  · refine ⟨?_, ?_⟩
    · rw [slotGet_slotSet_ne _ _ _ _ (Ne.symm hk),
        slotGet_slotSet_ne _ _ _ _ (Ne.symm hk), hdp]
    · rw [filterNd_slotSet_ne _ _ _ hk, filterNd_slotSet_ne _ _ _ hk, hnd]

/-- Row maps equivalent position-wise: same row keys, slot-equivalent
slot maps. -/
def RowEquiv : RowMap → RowMap → Prop :=
  List.Forall₂ fun a b => a.1 = b.1 ∧ SlotEquiv a.2 b.2

theorem rowEquiv_refl (r : RowMap) : RowEquiv r r := by
  induction r with
  | nil => exact List.Forall₂.nil
  | cons p rest ih => exact List.Forall₂.cons ⟨rfl, slotEquiv_refl p.2⟩ ih

theorem rowEquiv_rowUpdate {r1 r2 : RowMap} (h : RowEquiv r1 r2)
    (row : Nat) (k : String) (d : FieldMap) :
    RowEquiv (rowUpdate r1 row k d) (rowUpdate r2 row k d) := by
  induction h with
  | nil =>
    exact List.Forall₂.cons ⟨rfl, slotEquiv_refl _⟩ List.Forall₂.nil
  | cons hab hrest ih =>
    rename_i a b l1 l2
    obtain ⟨hkey, hse⟩ := hab
    obtain ⟨rowa, sa⟩ := a
    obtain ⟨rowb, sb⟩ := b
    simp only at hkey hse
    subst hkey
    by_cases hr : rowa = row
    · subst hr
      simp only [rowUpdate, if_pos rfl]
      exact List.Forall₂.cons ⟨rfl, slotEquiv_slotSet hse k d⟩ hrest
    · simp only [rowUpdate, if_neg hr]
      exact List.Forall₂.cons ⟨rfl, hse⟩ ih

/-- Block states equivalent for record building. -/
def StEquiv (s1 s2 : BlockState) : Prop :=
  s1.inputData = s2.inputData ∧ s1.resultData = s2.resultData
    ∧ RowEquiv s1.dpEntries s2.dpEntries

theorem stEquiv_collectLine {s1 s2 : BlockState} (h : StEquiv s1 s2)
    (l : PLine) : StEquiv (collectLine s1 l) (collectLine s2 l) := by
  obtain ⟨hin, hres, hrow⟩ := h
  cases l with
  | inputEvent data => exact ⟨rfl, hres, hrow⟩
  | dpEntry row data =>
    exact ⟨hin, hres, rowEquiv_rowUpdate hrow row "dp" data⟩
  | rowDetail kind row data =>
    exact ⟨hin, hres, rowEquiv_rowUpdate hrow row kind data⟩
  | blockDetail kind data =>
    exact ⟨by simp only [collectLine]; rw [hin], hres, hrow⟩
  | matchFound data => exact ⟨hin, rfl, hrow⟩
  | noMatch data => exact ⟨hin, rfl, hrow⟩
  | unrecognized => exact ⟨hin, hres, hrow⟩

theorem stEquiv_foldl {s1 s2 : BlockState} (h : StEquiv s1 s2) :
    ∀ ls : List PLine,
    StEquiv (ls.foldl collectLine s1) (ls.foldl collectLine s2) := by
  intro ls
  induction ls generalizing s1 s2 with
  | nil => exact h
  | cons l rest ih => exact ih (stEquiv_collectLine h l)

theorem buildEntry_foldl_filterNd (e : FieldMap) :
    ∀ slots : SlotMap,
    slots.foldl (fun acc kv => if kv.1 = "dp" then acc
        else applyData acc kv.2) e
      = (filterNd slots).foldl (fun acc kv => applyData acc kv.2) e := by
  intro slots
  induction slots generalizing e with
  | nil => rfl
  | cons kv rest ih =>
    by_cases h : kv.1 = "dp"
    · have hb : (kv.1 == "dp") = true := beq_iff_eq.mpr h
      simp only [List.foldl_cons, if_pos h, filterNd, List.filter_cons, hb,
        Bool.not_true, Bool.false_eq_true, if_false]
      exact ih e
    · have hb : (kv.1 == "dp") = false := beq_eq_false_iff_ne.mpr h
      simp only [List.foldl_cons, if_neg h, filterNd, List.filter_cons, hb,
        Bool.not_false, if_true]
      exact ih (applyData e kv.2)

theorem buildEntry_congr (i : InputMap) (res : Option (Bool × FieldMap))
    {s1 s2 : SlotMap} (h : SlotEquiv s1 s2) :
    buildEntry i res s1 = buildEntry i res s2 := by
  obtain ⟨hdp, hnd⟩ := h
  unfold buildEntry
  rw [hdp, buildEntry_foldl_filterNd _ s1,
    buildEntry_foldl_filterNd _ s2, hnd]

theorem rowEquiv_entries (i : InputMap) (res : Option (Bool × FieldMap)) :
    ∀ {r1 r2 : RowMap}, RowEquiv r1 r2 →
    (r1.filter fun rs => (slotGet rs.2 "dp").isSome).map
      (fun rs => buildEntry i res rs.2)
      = (r2.filter fun rs => (slotGet rs.2 "dp").isSome).map
        (fun rs => buildEntry i res rs.2) := by
  intro r1 r2 h
  induction h with
  | nil => rfl
  | cons hab hrest ih =>
    rename_i a b l1 l2
    obtain ⟨hkey, hse⟩ := hab
    have hdp := hse.1
    by_cases hsome : (slotGet a.2 "dp").isSome
    · have hsome2 : (slotGet b.2 "dp").isSome = true := by
        rw [← hdp]; exact hsome
      simp only [List.filter_cons, hsome, hsome2, if_true, List.map_cons]
      rw [buildEntry_congr i res hse, ih]
    · have hsome2 : (slotGet b.2 "dp").isSome = false := by
        rw [← hdp]; simpa using hsome
      simp only [List.filter_cons, hsome2, Bool.false_eq_true, if_false]
      simp only [show (slotGet a.2 "dp").isSome = false by
        simpa using hsome, Bool.false_eq_true, if_false]
      exact ih

theorem processInputLogs_stEquiv {l1 l2 : List PLine}
    (h : StEquiv (collectBlock l1) (collectBlock l2)) :
    processInputLogs l1 = processInputLogs l2 := by
  obtain ⟨hin, hres, hrow⟩ := h
  unfold processInputLogs
  rw [hin, hres]
  exact rowEquiv_entries _ _ hrow


theorem swap_detail_dp_equiv (st : BlockState) (kind : String)
    (row : Nat) (d ddp : FieldMap) (hk : kind ≠ "dp") :
    StEquiv (collectLine (collectLine st (.rowDetail kind row d))
        (.dpEntry row ddp))
      (collectLine (collectLine st (.dpEntry row ddp))
        (.rowDetail kind row d)) := by
  refine ⟨rfl, rfl, ?_⟩
  simp only [collectLine]
  generalize st.dpEntries = r
  induction r with
  | nil =>
    simp only [rowUpdate, if_pos rfl]
    refine List.Forall₂.cons ⟨rfl, ?_, ?_⟩ List.Forall₂.nil
    · rw [slotGet_slotSet_self, slotGet_slotSet_ne _ _ _ _ (Ne.symm hk),
        slotGet_slotSet_self]
    · rw [filterNd_slotSet_dp, filterNd_slotSet_ne _ _ _ hk,
        filterNd_slotSet_ne _ _ _ hk, filterNd_slotSet_dp]
  | cons p rest ih =>
    obtain ⟨row0, s0⟩ := p
    by_cases hr : row0 = row
    · subst hr
      simp only [rowUpdate, if_pos rfl]
      refine List.Forall₂.cons ⟨rfl, ?_, ?_⟩ (rowEquiv_refl rest)
      · rw [slotGet_slotSet_self, slotGet_slotSet_ne _ _ _ _ (Ne.symm hk),
          slotGet_slotSet_self]
      · rw [filterNd_slotSet_dp, filterNd_slotSet_ne _ _ _ hk,
          filterNd_slotSet_ne _ _ _ hk, filterNd_slotSet_dp]
    · simp only [rowUpdate, if_neg hr]
      exact List.Forall₂.cons ⟨rfl, slotEquiv_refl s0⟩ ih

theorem slotSet_collapse (k : String) (d1 d2 : FieldMap) :
    ∀ s : SlotMap, slotSet (slotSet s k d1) k d2 = slotSet s k d2 := by
  intro s
  induction s with
  | nil => simp [slotSet]
  | cons p rest ih =>
    obtain ⟨k0, d0⟩ := p
    by_cases h : k0 = k
    · simp [slotSet, h]
    · simp [slotSet, h, ih]

theorem rowUpdate_collapse (row : Nat) (k : String) (d1 d2 : FieldMap) :
    ∀ r : RowMap, rowUpdate (rowUpdate r row k d1) row k d2
      = rowUpdate r row k d2 := by
  intro r
  induction r with
  | nil => simp [rowUpdate, slotSet_collapse]
  | cons p rest ih =>
    obtain ⟨row0, s0⟩ := p
    by_cases h : row0 = row
    · simp [rowUpdate, h, slotSet_collapse]
    · simp [rowUpdate, h, ih]

/-- C8: flattened records are unchanged when a detail event swaps sides
with its owning primary dp event (detail-before-primary tolerated), while
among same-kind detail events of one row the last write wins — the stored
slot, and hence the record, comes from the later event alone. -/
theorem detail_order_insensitive_last_write_wins :
    (∀ (pre post : List PLine) (kind : String) (row : Nat)
        (d ddp : FieldMap), kind ≠ "dp" →
      processInputLogs
          (pre ++ PLine.rowDetail kind row d :: PLine.dpEntry row ddp :: post)
        = processInputLogs
          (pre ++ PLine.dpEntry row ddp :: PLine.rowDetail kind row d :: post))
    ∧ (∀ (ls : List PLine) (kind : String) (row : Nat) (d1 d2 : FieldMap),
      processInputLogs
          (ls ++ [PLine.rowDetail kind row d1, PLine.rowDetail kind row d2])
        = processInputLogs (ls ++ [PLine.rowDetail kind row d2])) := by
  constructor
  · intro pre post kind row d ddp hk
    apply processInputLogs_stEquiv
    unfold collectBlock
    rw [List.foldl_append, List.foldl_append]
    simp only [List.foldl_cons]
    exact stEquiv_foldl
      (swap_detail_dp_equiv (pre.foldl collectLine ⟨[], [], none⟩)
        kind row d ddp hk) post
  · intro ls kind row d1 d2
    have hcb : collectBlock
        (ls ++ [PLine.rowDetail kind row d1, PLine.rowDetail kind row d2])
        = collectBlock (ls ++ [PLine.rowDetail kind row d2]) := by
      unfold collectBlock
      rw [List.foldl_append, List.foldl_append]
      simp only [List.foldl_cons, List.foldl_nil, collectLine]
      rw [rowUpdate_collapse]
    unfold processInputLogs
    rw [hcb]

/-- Witness for C8 at a concrete block: an input event, a vertical-rule
detail and its dp row in either order, and a terminal match. -/
theorem detail_order_insensitive_last_write_wins_witness :
    ("vertical_rule" ≠ "dp")
    ∧ processInputLogs
        [PLine.inputEvent [("input_column", .i 1)],
         PLine.rowDetail "vertical_rule" 1 [("vrule_penalty", .q 2)],
         PLine.dpEntry 1 [("dp_row", .i 1)],
         PLine.matchFound [("match_score", .q 2)]]
      = processInputLogs
        [PLine.inputEvent [("input_column", .i 1)],
         PLine.dpEntry 1 [("dp_row", .i 1)],
         PLine.rowDetail "vertical_rule" 1 [("vrule_penalty", .q 2)],
         PLine.matchFound [("match_score", .q 2)]] :=
  ⟨by decide,
    detail_order_insensitive_last_write_wins.1
      [PLine.inputEvent [("input_column", .i 1)]]
      [PLine.matchFound [("match_score", .q 2)]]
      "vertical_rule" 1 [("vrule_penalty", .q 2)] [("dp_row", .i 1)]
      (by decide)⟩

/-! ## Coercion layer and the flattener file loop

Embeds `LogFlattener.parse_log_file` / `_process_line` /
`_parse_single_line` / `_extract_data` (log_flattener.py lines 191-399).
A raw line is represented by the pattern that structurally matched it
together with the captured group strings; `_extract_data`'s `int()` /
`float()` coercions are embedded over those strings and can fail.  The
kinds carried here (input, dp entry, vertical rule, match, no-match) are
the ones the claims exercise; the remaining grammar rows coerce with the
same two functions. -/

/-- Structural match of one raw line: pattern name and captured groups. -/
inductive RawLine where
  | inputEvent (column pitch perfTime : String)
  | dpEntry (column row pitch perfTime vr hr fv mflag used uc : String)
  | verticalRule (row upValue penalty result startPoint : String)
  | matchFound (row pitch perfTime score : String)
  | noMatch (pitch perfTime : String)
  | unmatched
deriving DecidableEq

/-- Numeric value of a digit run. -/
def digitsVal (cs : List Char) : Nat :=
  cs.foldl (fun acc c => acc * 10 + (c.toNat - '0'.toNat)) 0

/-- Splits one optional leading minus sign. -/
def splitNeg (cs : List Char) : Bool × List Char :=
  match cs with
  | c :: rest => if c = '-' then (true, rest) else (false, cs)
  | [] => (false, [])

/-- Python `float()` restricted to the alphabet the log regex classes
allow (digits, dot, minus): an optional leading minus, then digits with at
most one dot and at least one digit; anything else raises `ValueError`
(whose message carries neither a line number nor a field name). -/
def pyFloatQ (str : String) : Except String ℚ :=
  let negRest := splitNeg str.toList
  let intPart := negRest.2.takeWhile Char.isDigit
  let rest1 := negRest.2.dropWhile Char.isDigit
  match rest1 with
  | [] =>
      if intPart.isEmpty then
        .error ("could not convert string to float: " ++ str)
      else
        .ok (if negRest.1 then -(digitsVal intPart : ℚ)
          else (digitsVal intPart : ℚ))
  | '.' :: fracPart =>
      if fracPart.all Char.isDigit
          && (!intPart.isEmpty || !fracPart.isEmpty) then
        .ok (if negRest.1 then
            -((digitsVal intPart : ℚ)
              + (digitsVal fracPart : ℚ) / 10 ^ fracPart.length)
          else (digitsVal intPart : ℚ)
            + (digitsVal fracPart : ℚ) / 10 ^ fracPart.length)
      else .error ("could not convert string to float: " ++ str)
  | _ => .error ("could not convert string to float: " ++ str)

/-- Python `int()` on the same alphabet: an optional minus then at least
one digit and nothing else. -/
def pyIntZ (str : String) : Except String Int :=
  let negRest := splitNeg str.toList
  if negRest.2.isEmpty || !negRest.2.all Char.isDigit then
    .error ("invalid literal for int() with base 10: " ++ str)
  else
    .ok (if negRest.1 then -(digitsVal negRest.2 : Int)
      else (digitsVal negRest.2 : Int))

/-- Embeds `_parse_single_line` plus `_extract_data`: coerce the captured groups of
one structurally-matched line into its typed event dict; an unmatched
line yields nothing; a failed coercion raises. -/
def extractRawE : RawLine → Except String (Option PLine)
  | .inputEvent column pitch perfTime => do
      let c ← pyIntZ column
      let p ← pyIntZ pitch
      let t ← pyFloatQ perfTime
      .ok (some (.inputEvent
        [("input_column", .i c), ("input_pitch", .i p),
         ("input_perf_time", .q t)]))
  | .dpEntry _ row _ _ vr hr fv mflag used uc => do
      let r ← pyIntZ row
      let vrv ← pyFloatQ vr
      let hrv ← pyFloatQ hr
      let fvv ← pyFloatQ fv
      let mv ← pyIntZ mflag
      let ucv ← pyIntZ uc
      .ok (some (.dpEntry r.toNat
        [("dp_row", .i r), ("dp_vertical_rule", .q vrv),
         ("dp_horizontal_rule", .q hrv), ("dp_final_value", .q fvv),
         ("dp_match", .i mv), ("dp_used_pitches", .s used),
         ("dp_unused_count", .i ucv)]))
  | .verticalRule row upValue penalty result startPoint => do
      let r ← pyIntZ row
      let up ← pyFloatQ upValue
      let pen ← pyFloatQ penalty
      let res ← pyFloatQ result
      .ok (some (.rowDetail "vertical_rule" r.toNat
        [("row", .i r), ("vrule_up_value", .q up),
         ("vrule_penalty", .q pen), ("vrule_result", .q res),
         ("vrule_start_point", .s startPoint)]))
  | .matchFound row pitch perfTime score => do
      let r ← pyIntZ row
      let p ← pyIntZ pitch
      let t ← pyFloatQ perfTime
      let sc ← pyFloatQ score
      .ok (some (.matchFound
        [("match_row", .i r), ("match_pitch", .i p),
         ("match_perf_time", .q t), ("match_score", .q sc)]))
  | .noMatch pitch perfTime => do
      let p ← pyIntZ pitch
      let t ← pyFloatQ perfTime
      .ok (some (.noMatch
        [("no_match_pitch", .i p), ("no_match_perf_time", .q t)]))
  | .unmatched => .ok none

/-- The parse loop at the top of `_process_input_logs` (lines 286-315):
the first coercion failure aborts the block with no entries emitted. -/
def parseBlockE : List RawLine → Except String (List PLine)
  | [] => .ok []
  | l :: rest => do
      let p ← extractRawE l
      let ps ← parseBlockE rest
      match p with
      | some pl => .ok (pl :: ps)
      | none => .ok ps

/-- The flattener's mutable state: the pending block and the finished
records (statistics counters omitted). -/
structure FlatState where
  currentInputLogs : List RawLine
  completedEntries : List FieldMap
deriving DecidableEq

/-- Embeds `_process_input_logs` at the file level: on success the block's
records are appended and the pending block cleared; a coercion error
raises first, leaving both untouched. -/
def processInputLogsE (st : FlatState) : Except String FlatState :=
  match parseBlockE st.currentInputLogs with
  | .error e => .error e
  | .ok pls => .ok
      { currentInputLogs := []
        completedEntries := st.completedEntries ++ processInputLogs pls }

/-- Embeds `_process_line` (lines 238-271) with the partial-mutation semantics of
a raised exception: the state already mutated before the raise persists
(a MATCH/NO_MATCH line is appended before the block is processed; an
INPUT line that triggers a failing flush is lost and the pending block
kept). -/
def processLineStep (st : FlatState) (l : RawLine) :
    FlatState × Option String :=
  match l with
  | .inputEvent _ _ _ =>
      if st.currentInputLogs.isEmpty then
        ({ st with currentInputLogs := [l] }, none)
      else
        match processInputLogsE st with
        | .error e => (st, some e)
        | .ok st' => ({ st' with currentInputLogs := [l] }, none)
  | .matchFound _ _ _ _ =>
      match processInputLogsE
          { st with currentInputLogs := st.currentInputLogs ++ [l] } with
      | .error e =>
          ({ st with currentInputLogs := st.currentInputLogs ++ [l] },
            some e)
      | .ok st' => (st', none)
  | .noMatch _ _ =>
      match processInputLogsE
          { st with currentInputLogs := st.currentInputLogs ++ [l] } with
      | .error e =>
          ({ st with currentInputLogs := st.currentInputLogs ++ [l] },
            some e)
      | .ok st' => (st', none)
  | other =>
      if st.currentInputLogs.isEmpty then (st, none)
      else ({ st with currentInputLogs := st.currentInputLogs ++ [other] },
        none)

/-- The per-line loop of `parse_log_file` (lines 210-227): every raised
error is caught, logged as a warning, and the loop continues. -/
def runLines (lines : List RawLine) : FlatState :=
  lines.foldl (fun st l => (processLineStep st l).1) ⟨[], []⟩

/-- Embeds `LogFlattener.parse_log_file` (lines 191-236): the loop with its
per-line try/except, then the final flush of a pending block — which sits
outside the try/except, so its error propagates uncaught. -/
def flattenLog (lines : List RawLine) : Except String (List FieldMap) :=
  match (runLines lines).currentInputLogs with
  | [] => .ok (runLines lines).completedEntries
  | _ :: _ =>
      match processInputLogsE (runLines lines) with
      | .error e => .error e
      | .ok st' => .ok st'.completedEntries

/-- C5 (amended): whenever processing a line raises — which happens only
through a coercion failure inside the block flush — the per-line handler
catches it and the flattener emits no record for the enclosing block: the
completed entries are unchanged and the pending block is retained (with
the current line appended when it was a block terminator), after which the
loop simply continues with the next line. -/
theorem coercion_error_caught_block_dropped (st : FlatState) (l : RawLine)
    (e : String) (h : (processLineStep st l).2 = some e) :
    (processLineStep st l).1.completedEntries = st.completedEntries
    ∧ ((processLineStep st l).1.currentInputLogs = st.currentInputLogs
      ∨ (processLineStep st l).1.currentInputLogs
        = st.currentInputLogs ++ [l]) := by
  cases l with
  | inputEvent column pitch perfTime =>
    by_cases hcur : st.currentInputLogs.isEmpty
    · simp [processLineStep, hcur] at h
    · simp only [processLineStep, hcur, Bool.false_eq_true, if_false] at h ⊢
      cases hp : processInputLogsE st with
      | error e0 => simp [hp]
      | ok st' => rw [hp] at h; simp at h
  | matchFound row pitch perfTime score =>
    simp only [processLineStep] at h ⊢
    cases hp : processInputLogsE
        { st with currentInputLogs := st.currentInputLogs
          ++ [RawLine.matchFound row pitch perfTime score] } with
    | error e0 => simp [hp]
    | ok st' => rw [hp] at h; simp at h
  | noMatch pitch perfTime =>
    simp only [processLineStep] at h ⊢
    cases hp : processInputLogsE
        { st with currentInputLogs := st.currentInputLogs
          ++ [RawLine.noMatch pitch perfTime] } with
    | error e0 => simp [hp]
    | ok st' => rw [hp] at h; simp at h
  | dpEntry column row pitch perfTime vr hr fv mflag used uc =>
    by_cases hcur : st.currentInputLogs.isEmpty
    · simp [processLineStep, hcur] at h
    · simp [processLineStep, hcur] at h
  | verticalRule row upValue penalty result startPoint =>
    by_cases hcur : st.currentInputLogs.isEmpty
    · simp [processLineStep, hcur] at h
    · simp [processLineStep, hcur] at h
  | unmatched =>
    by_cases hcur : st.currentInputLogs.isEmpty
    · simp [processLineStep, hcur] at h
    · simp [processLineStep, hcur] at h

/-- The block with one structurally valid but uncoercible field
(`up_value:--` matches the class of `[-\d.]+` yet `float("--")`
raises). -/
def rawVruleBad : RawLine :=
  .verticalRule "1" "--" "0" "0" "t"

def flatGoodLog : List RawLine :=
  [.inputEvent "1" "60" "1.500",
   .dpEntry "1" "1" "60" "1.500" "0" "2.0" "2.0" "1" "" "0",
   .matchFound "1" "60" "1.500" "2.0"]

def flatBadLog : List RawLine :=
  [.inputEvent "1" "60" "1.500",
   .dpEntry "1" "1" "60" "1.500" "0" "2.0" "2.0" "1" "" "0",
   rawVruleBad,
   .matchFound "1" "60" "1.500" "2.0"]

/-- C5 counterexample to the claim as stated: the clean log yields one
record, but inserting the uncoercible line does not make processing that
line a surfaced hard error with line and field — instead the block's
records are dropped while the loop continues (the caught error leaves
zero completed entries), and the error that finally escapes, at the
end-of-file flush of the still-pending block, is the bare coercion
message naming neither a line number nor a field. -/
theorem coercion_failure_swallowed_and_unattributed :
    (flattenLog flatGoodLog).toOption.map List.length = some 1
    ∧ (runLines flatBadLog).completedEntries = []
    ∧ flattenLog flatBadLog
      = .error "could not convert string to float: --" := by
  refine ⟨?_, ?_, ?_⟩
  · simp +decide [flattenLog, flatGoodLog, runLines, processLineStep,
      processInputLogsE, parseBlockE, extractRawE, pyIntZ, pyFloatQ,
      splitNeg, digitsVal, processInputLogs, collectBlock, collectLine,
      rowUpdate, slotSet, slotGet, Except.toOption, Bind.bind, Except.bind]
  · simp +decide [runLines, flatBadLog, rawVruleBad, processLineStep,
      processInputLogsE, parseBlockE, extractRawE, pyIntZ, pyFloatQ,
      splitNeg, digitsVal, Bind.bind, Except.bind]
  · simp +decide [flattenLog, flatBadLog, rawVruleBad, runLines,
      processLineStep, processInputLogsE, parseBlockE, extractRawE,
      pyIntZ, pyFloatQ, splitNeg, digitsVal, Bind.bind, Except.bind]

/-- Witness for the amended C5 theorem: the terminating MATCH line of the
poisoned block raises the caught coercion error; no record is emitted and
the pending block is retained with the line appended. -/
theorem coercion_error_caught_block_dropped_witness :
    ((processLineStep
        ⟨[.inputEvent "1" "60" "1.500", rawVruleBad], []⟩
        (.matchFound "1" "60" "1.500" "2.0")).2
      = some "could not convert string to float: --")
    ∧ ((processLineStep
        ⟨[.inputEvent "1" "60" "1.500", rawVruleBad], []⟩
        (.matchFound "1" "60" "1.500" "2.0")).1.completedEntries
      = ([] : List FieldMap))
    ∧ (((processLineStep
        ⟨[.inputEvent "1" "60" "1.500", rawVruleBad], []⟩
        (.matchFound "1" "60" "1.500" "2.0")).1.currentInputLogs
      = ([.inputEvent "1" "60" "1.500", rawVruleBad] : List RawLine))
      ∨ ((processLineStep
        ⟨[.inputEvent "1" "60" "1.500", rawVruleBad], []⟩
        (.matchFound "1" "60" "1.500" "2.0")).1.currentInputLogs
      = ([.inputEvent "1" "60" "1.500", rawVruleBad] : List RawLine)
        ++ [.matchFound "1" "60" "1.500" "2.0"])) := by
  have h2 : (processLineStep
      ⟨[.inputEvent "1" "60" "1.500", rawVruleBad], []⟩
      (.matchFound "1" "60" "1.500" "2.0")).2
      = some "could not convert string to float: --" := by
    simp +decide [processLineStep, processInputLogsE, parseBlockE,
      extractRawE, pyIntZ, pyFloatQ, splitNeg, digitsVal, rawVruleBad,
      Bind.bind, Except.bind]
  refine ⟨h2, ?_⟩
  exact coercion_error_caught_block_dropped
    ⟨[.inputEvent "1" "60" "1.500", rawVruleBad], []⟩
    (.matchFound "1" "60" "1.500" "2.0")
    "could not convert string to float: --" h2

/-- Witness for C10 at a concrete decision, match and window. -/
theorem context_window_semantics_witness :
    0 < 3 ∧ ContextWindowSemantics
      [⟨1, 1, 60, 2, 0, 2, 2, true, [], 0, 4⟩]
      [⟨1, 60, 2, 2, 5⟩] 2 3 :=
  ⟨by decide, context_window_semantics
    [⟨1, 1, 60, 2, 0, 2, 2, true, [], 0, 4⟩]
    [⟨1, 60, 2, 2, 5⟩] 2 3 (by decide)⟩

end SFDebug
